import Mathlib

/-!
Verification of the sik-sort sort/move engine (scanner, classifier,
filter engine, duplicate detector, conflict-safe mover, sort orchestrator).

The Python source is shallowly embedded: paths are lists of components,
the filesystem is an explicit finite structure threaded through every
operation, `stat`/`shutil.move` failures are `Except` values, and each
Python function is translated definition-by-definition.  External
standard-library calls (`fnmatch`, `hashlib` digests, `strftime`) are
taken as explicit function parameters, mirroring that they are library
calls outside the repository.
-/

namespace SikSort

/-- A filesystem path, as its list of components from the filesystem root
(`/a/b/c.txt` is `["a", "b", "c.txt"]`). -/
abbrev Path := List String

/-- `Path.name`: the final component of a path; the empty path (the
filesystem root) has name `""`, as in Python's `pathlib`. -/
def pathName (p : Path) : String := p.getLastD ""

/-- Render a path for error messages. -/
def pathStr (p : Path) : String := String.intercalate "/" p

/-- Python's `Path.parents`: every strict ancestor of a path, including the
filesystem root (here listed shortest-first; only membership is ever used). -/
def strictAncestors (q : Path) : List Path :=
  (List.range q.length).map (fun n => q.take n)

/-- Lowercase a string character-by-character (Python `str.lower` on the
ASCII names used here). -/
def strLower (s : String) : String := String.mk (s.data.map Char.toLower)

instance exceptDecEq {ε α : Type} [DecidableEq ε] [DecidableEq α] :
    DecidableEq (Except ε α) := fun x y =>
  match x, y with
  | .ok a, .ok b =>
    if h : a = b then .isTrue (by rw [h]) else .isFalse (by simp [h])
  | .error a, .error b =>
    if h : a = b then .isTrue (by rw [h]) else .isFalse (by simp [h])
  | .ok _, .error _ => .isFalse (by simp)
  | .error _, .ok _ => .isFalse (by simp)

/-- Index of the last `'.'` in a character list, if any (Python `str.rfind('.')`). -/
def lastDotIdx (cs : List Char) : Option Nat :=
  ((List.range cs.length).filter (fun i => cs.getD i ' ' = '.')).getLast?

/-- Python `pathlib` stem/suffix split of a filename: the suffix starts at the
last dot, provided that dot is neither the first nor the last character;
otherwise the suffix is empty and the stem is the whole name. -/
def splitExtChars (cs : List Char) : List Char × List Char :=
  match lastDotIdx cs with
  | none => (cs, [])
  | some i => if 0 < i ∧ i < cs.length - 1 then (cs.take i, cs.drop i) else (cs, [])

/-- Python `Path(filename).stem`. -/
def pathStem (name : String) : String := String.mk (splitExtChars name.data).1

/-- Python `Path(filename).suffix` (includes the leading dot, or `""`). -/
def pathSuffix (name : String) : String := String.mk (splitExtChars name.data).2

/-! ## classifier.py -/

/-- `FileCategory` enumeration from `classifier.py`. -/
inductive FileCategory
  | image
  | video
  | misc
  | archiveCat
deriving DecidableEq, Repr

/-- The `.value` of each enum member (the destination folder name). -/
def FileCategory.value : FileCategory → String
  | .image => "img"
  | .video => "vid"
  | .archiveCat => "arc"
  | .misc => "msk"

/-- Image extension set from `get_category_extensions`. -/
def image_extensions : List String :=
  [".jpg", ".jpeg", ".png", ".gif", ".bmp", ".tiff", ".webp", ".svg"]

/-- Video extension set from `get_category_extensions`. -/
def video_extensions : List String :=
  [".mp4", ".avi", ".mov", ".mkv", ".wmv", ".flv", ".webm", ".m4v", ".mpg", ".mpeg"]

/-- Archive extension set from `get_category_extensions`. -/
def archive_extensions : List String :=
  [".zip", ".rar", ".7z", ".tar", ".gz", ".bz2", ".xz", ".iso"]

/-- `classify_file`: lowercased extension looked up across the three sets in
insertion order of the table; no match gives `misc`.  Takes the filename
(the path's final component), of which Python only reads `suffix`. -/
def classify_file (name : String) : FileCategory :=
  let extension := strLower (pathSuffix name)
  if image_extensions.contains extension then .image
  else if video_extensions.contains extension then .video
  else if archive_extensions.contains extension then .archiveCat
  else .misc

/-! ## The filesystem model -/

/-- One regular file: its path plus the metadata the engine reads via
`stat` (byte size, modification and metadata-change timestamps as raw
epoch numbers), the byte content (for hashing) and whether opening it
for reading succeeds. -/
structure FileEntry where
  path : Path
  size : Nat
  mtime : Nat
  ctime : Nat
  content : List Nat
  readable : Bool
deriving DecidableEq, Repr

/-- A snapshot of the directory tree: the regular files (with metadata)
and the directories. -/
structure FS where
  files : List FileEntry
  dirs : List Path
deriving DecidableEq, Repr

/-- The paths of all regular files. -/
def FS.filePaths (fs : FS) : List Path := fs.files.map (fun e => e.path)

/-- Python `Path.exists()`: true for a regular file or a directory. -/
def FS.existsPath (fs : FS) (p : Path) : Bool :=
  fs.filePaths.contains p || fs.dirs.contains p

/-- Well-formedness of a snapshot: file paths are distinct, directory paths
are distinct, and nothing is both a file and a directory. -/
def FS.WF (fs : FS) : Prop :=
  fs.filePaths.Nodup ∧ fs.dirs.Nodup ∧ ∀ p ∈ fs.filePaths, p ∉ fs.dirs

instance (fs : FS) : Decidable fs.WF := by
  unfold FS.WF
  infer_instance

/-! ## size_classifier.py -/

/-- `SizeCategory` enumeration. -/
inductive SizeCategory
  | small
  | medium
  | large
deriving DecidableEq, Repr

/-- Folder name of a size category. -/
def SizeCategory.value : SizeCategory → String
  | .small => "small"
  | .medium => "medium"
  | .large => "large"

/-- `SizeThresholds` with the source defaults (1 MB, 100 MB). -/
structure SizeThresholds where
  small_max : Nat := 1048576
  medium_max : Nat := 104857600
deriving DecidableEq, Repr

/-- `get_file_size`: `stat().st_size`, failing when the path is not a
regular file (vanished between scan and classify). -/
def get_file_size (fs : FS) (p : Path) : Except String Nat :=
  match fs.files.find? (fun e => e.path = p) with
  | some e => .ok e.size
  | none => .error ("No such file: " ++ pathStr p)

/-- `classify_by_size`: stat the file, then `size <= small_max` gives small,
else `size <= medium_max` gives medium, else large. -/
def classify_by_size (fs : FS) (p : Path) (t : SizeThresholds) :
    Except String SizeCategory :=
  match get_file_size fs p with
  | .error e => .error e
  | .ok size =>
    .ok (if size ≤ t.small_max then .small
         else if size ≤ t.medium_max then .medium
         else .large)

/-! ## filters.py -/

/-- `FilterConfig` (Python lists/sets become lists; only membership and
emptiness are read). -/
structure FilterConfig where
  include_patterns : List String := []
  exclude_patterns : List String := []
  include_extensions : List String := []
  exclude_extensions : List String := []
deriving DecidableEq, Repr

/-- `matches_pattern`: `fnmatch(file_path.name, pattern)`.  The glob
matcher `fnm` is the Python standard-library `fnmatch`, passed as a
parameter. -/
def matches_pattern (fnm : String → String → Bool) (file_path : Path)
    (pat : String) : Bool :=
  fnm (pathName file_path) pat

/-- `matches_extensions`: lowercased suffix membership in the lowercased
extension set. -/
def matches_extensions (file_path : Path) (extensions : List String) : Bool :=
  (extensions.map strLower).contains (strLower (pathSuffix (pathName file_path)))

/-- Stage 1 of `apply_filters`: keep files matching some include pattern;
an empty pattern list is a no-op (Python truthiness test). -/
def filterStage1 (fnm : String → String → Bool) (config : FilterConfig)
    (files : List Path) : List Path :=
  if config.include_patterns.isEmpty then files
  else files.filter (fun f => config.include_patterns.any (matches_pattern fnm f))

/-- Stage 2 of `apply_filters`: keep files with an included extension. -/
def filterStage2 (config : FilterConfig) (files : List Path) : List Path :=
  if config.include_extensions.isEmpty then files
  else files.filter (fun f => matches_extensions f config.include_extensions)

/-- Stage 3 of `apply_filters`: drop files matching some exclude pattern. -/
def filterStage3 (fnm : String → String → Bool) (config : FilterConfig)
    (files : List Path) : List Path :=
  if config.exclude_patterns.isEmpty then files
  else files.filter (fun f => !(config.exclude_patterns.any (matches_pattern fnm f)))

/-- Stage 4 of `apply_filters`: drop files with an excluded extension. -/
def filterStage4 (config : FilterConfig) (files : List Path) : List Path :=
  if config.exclude_extensions.isEmpty then files
  else files.filter (fun f => !(matches_extensions f config.exclude_extensions))

/-- `apply_filters`: the four stages in source order, then
`excluded_count = total_files - len(filtered)`. -/
def apply_filters (fnm : String → String → Bool) (files : List Path)
    (config : FilterConfig) : List Path × Nat :=
  let total_files := files.length
  let filtered := filterStage4 config
    (filterStage3 fnm config (filterStage2 config (filterStage1 fnm config files)))
  (filtered, total_files - filtered.length)

lemma filterStage1_sublist (fnm : String → String → Bool) (config : FilterConfig)
    (files : List Path) : (filterStage1 fnm config files).Sublist files := by
  unfold filterStage1
  split
  · exact List.Sublist.refl files
  · exact List.filter_sublist files

lemma filterStage2_sublist (config : FilterConfig) (files : List Path) :
    (filterStage2 config files).Sublist files := by
  unfold filterStage2
  split
  · exact List.Sublist.refl files
  · exact List.filter_sublist files

lemma filterStage3_sublist (fnm : String → String → Bool) (config : FilterConfig)
    (files : List Path) : (filterStage3 fnm config files).Sublist files := by
  unfold filterStage3
  split
  · exact List.Sublist.refl files
  · exact List.filter_sublist files

lemma filterStage4_sublist (config : FilterConfig) (files : List Path) :
    (filterStage4 config files).Sublist files := by
  unfold filterStage4
  split
  · exact List.Sublist.refl files
  · exact List.filter_sublist files

lemma apply_filters_fst_sublist (fnm : String → String → Bool)
    (files : List Path) (config : FilterConfig) :
    (apply_filters fnm files config).1.Sublist files :=
  ((filterStage4_sublist _ _).trans ((filterStage3_sublist _ _ _).trans
    (filterStage2_sublist _ _))).trans (filterStage1_sublist _ _ _)

/-- C7.  Filter accounting and narrowing: `apply_filters` runs its four
stages in the fixed order include-patterns, include-extensions,
exclude-patterns, exclude-extensions; the result satisfies
`excludedCount + len(filtered) = len(files)`; each stage's output is a
subsequence of its input, the overall output is a subsequence of the
input, each unset stage is a no-op, and a wholly-empty configuration
returns the input list with excluded count 0. -/
theorem c7_filter_accounting (fnm : String → String → Bool)
    (files : List Path) (config : FilterConfig) :
    (apply_filters fnm files config =
      (filterStage4 config (filterStage3 fnm config
        (filterStage2 config (filterStage1 fnm config files))),
       files.length - (filterStage4 config (filterStage3 fnm config
        (filterStage2 config (filterStage1 fnm config files)))).length)) ∧
    ((apply_filters fnm files config).2 + (apply_filters fnm files config).1.length
      = files.length) ∧
    ((filterStage1 fnm config files).Sublist files ∧
     (filterStage2 config files).Sublist files ∧
     (filterStage3 fnm config files).Sublist files ∧
     (filterStage4 config files).Sublist files ∧
     (apply_filters fnm files config).1.Sublist files) ∧
    ((config.include_patterns = [] → filterStage1 fnm config files = files) ∧
     (config.include_extensions = [] → filterStage2 config files = files) ∧
     (config.exclude_patterns = [] → filterStage3 fnm config files = files) ∧
     (config.exclude_extensions = [] → filterStage4 config files = files)) ∧
    (config = {} → apply_filters fnm files config = (files, 0)) := by
  refine ⟨rfl, ?_, ?_, ?_, ?_⟩
  · have h := (apply_filters_fst_sublist fnm files config).length_le
    simp only [apply_filters] at h ⊢
    omega
  · exact ⟨filterStage1_sublist fnm config files, filterStage2_sublist config files,
      filterStage3_sublist fnm config files, filterStage4_sublist config files,
      apply_filters_fst_sublist fnm files config⟩
  · refine ⟨fun h => ?_, fun h => ?_, fun h => ?_, fun h => ?_⟩
    · simp [filterStage1, h]
    · simp [filterStage2, h]
    · simp [filterStage3, h]
    · simp [filterStage4, h]
  · intro h
    subst h
    simp [apply_filters, filterStage1, filterStage2, filterStage3, filterStage4]

/-- Witness for C7: the empty configuration on a one-file list returns the
list unchanged with excluded count 0. -/
theorem c7_filter_accounting_witness :
    apply_filters (fun n p => n = p) [["root", "a.txt"]] {} = ([["root", "a.txt"]], 0) :=
  (c7_filter_accounting (fun n p => n = p) [["root", "a.txt"]] {}).2.2.2.2 rfl

/-- C8.  Size classification boundary rule: with `small_max < medium_max`,
a file of byte length `size` is small iff `size ≤ small_max`, medium iff
`small_max < size ≤ medium_max`, and large iff `medium_max < size`; the
three cases are non-overlapping and exhaustive. -/
theorem c8_size_boundaries (fs : FS) (p : Path) (t : SizeThresholds)
    (e : FileEntry) (hfind : fs.files.find? (fun x => x.path = p) = some e)
    (hlt : t.small_max < t.medium_max) :
    (classify_by_size fs p t = .ok .small ↔ e.size ≤ t.small_max) ∧
    (classify_by_size fs p t = .ok .medium ↔
      t.small_max < e.size ∧ e.size ≤ t.medium_max) ∧
    (classify_by_size fs p t = .ok .large ↔ t.medium_max < e.size) := by
  have hsz : classify_by_size fs p t =
      .ok (if e.size ≤ t.small_max then .small
           else if e.size ≤ t.medium_max then .medium
           else .large) := by
    unfold classify_by_size get_file_size
    rw [hfind]
  rw [hsz]
  by_cases h1 : e.size ≤ t.small_max
  · simp [h1]
    omega
  · by_cases h2 : e.size ≤ t.medium_max
    · simp [h1, h2]
      omega
    · simp [h1, h2]
      omega

/-- Witness for C8 at concrete thresholds 10 < 20: a 15-byte file is medium. -/
theorem c8_size_boundaries_witness :
    classify_by_size
      ⟨[⟨["root", "a.txt"], 15, 0, 0, [], true⟩], []⟩ ["root", "a.txt"]
      ⟨10, 20⟩ = .ok .medium ∧ (10 : Nat) < 15 ∧ (15 : Nat) ≤ 20 :=
  ⟨((c8_size_boundaries ⟨[⟨["root", "a.txt"], 15, 0, 0, [], true⟩], []⟩
      ["root", "a.txt"] ⟨10, 20⟩ ⟨["root", "a.txt"], 15, 0, 0, [], true⟩
      (by decide) (by decide)).2.1).mpr (by decide), by decide, by decide⟩

/-! ## Decimal rendering of the conflict counter

Python renders the counter with an f-string (`f"{name}_{counter}{ext}"`).
`natDigits`/`natRepr` is that decimal rendering, written with explicit
fuel so that it is structural (and hence kernel-computable); fuel `n + 1`
always suffices since `n / 10 < n` for `n ≥ 10`. -/

/-- Big-endian decimal digit characters of `n`, with fuel. -/
def natDigitsAux : Nat → Nat → List Char
  | 0, _ => []
  | fuel + 1, n =>
    if n < 10 then [Nat.digitChar n]
    else natDigitsAux fuel (n / 10) ++ [Nat.digitChar (n % 10)]

/-- Big-endian decimal digit characters of `n`. -/
def natDigits (n : Nat) : List Char := natDigitsAux (n + 1) n

/-- Decimal string of `n` (Python `str(n)` / f-string interpolation). -/
def natRepr (n : Nat) : String := String.mk (natDigits n)

lemma natDigitsAux_congr : ∀ f1 f2 n, n < f1 → n < f2 →
    natDigitsAux f1 n = natDigitsAux f2 n := by
  intro f1
  induction f1 with
  | zero => omega
  | succ f ih =>
    intro f2 n h1 h2
    match f2, h2 with
    | f2 + 1, h2 =>
      show (if n < 10 then _ else _) = (if n < 10 then _ else _)
      by_cases hn : n < 10
      · simp [hn]
      · have hd : n / 10 < n := Nat.div_lt_self (by omega) (by omega)
        simp only [if_neg hn]
        rw [ih f2 (n / 10) (by omega) (by omega)]

lemma natDigits_unfold (n : Nat) :
    natDigits n = if n < 10 then [Nat.digitChar n]
      else natDigits (n / 10) ++ [Nat.digitChar (n % 10)] := by
  show natDigitsAux (n + 1) n = _
  by_cases hn : n < 10
  · simp [natDigitsAux, hn]
  · have hd : n / 10 < n := Nat.div_lt_self (by omega) (by omega)
    show (if n < 10 then _ else natDigitsAux n (n / 10) ++ _) = _
    rw [if_neg hn, if_neg hn,
      natDigitsAux_congr n (n / 10 + 1) (n / 10) (by omega) (by omega)]
    rfl

lemma natDigits_ne_nil (n : Nat) : natDigits n ≠ [] := by
  rw [natDigits_unfold]
  split
  · simp
  · simp

lemma digitChar_inj_fin : ∀ a b : Fin 10,
    Nat.digitChar a.val = Nat.digitChar b.val → a = b := by
  decide

lemma digitChar_inj_lt (a b : Nat) (ha : a < 10) (hb : b < 10)
    (h : Nat.digitChar a = Nat.digitChar b) : a = b := by
  have := digitChar_inj_fin ⟨a, ha⟩ ⟨b, hb⟩ h
  exact congrArg Fin.val this

lemma append_singleton_inj {α : Type} (xs ys : List α) (x y : α)
    (h : xs ++ [x] = ys ++ [y]) : xs = ys ∧ x = y := by
  have hl : xs.length = ys.length := by
    have := congrArg List.length h
    simp at this
    omega
  obtain ⟨h1, h2⟩ := List.append_inj h hl
  simp at h2
  exact ⟨h1, h2⟩

lemma natDigits_inj : ∀ a b : Nat, natDigits a = natDigits b → a = b := by
  intro a
  induction a using Nat.strong_induction_on with
  | _ a ih =>
    intro b h
    rw [natDigits_unfold a, natDigits_unfold b] at h
    by_cases ha : a < 10 <;> by_cases hb : b < 10
    · rw [if_pos ha, if_pos hb] at h
      simp at h
      exact digitChar_inj_lt a b ha hb h
    · rw [if_pos ha, if_neg hb] at h
      have := natDigits_ne_nil (b / 10)
      have hc := congrArg List.length h
      simp at hc
      cases hne : natDigits (b / 10) with
      | nil => exact absurd hne this
      | cons c cs => rw [hne] at hc; simp at hc
    · rw [if_neg ha, if_pos hb] at h
      have := natDigits_ne_nil (a / 10)
      have hc := congrArg List.length h
      simp at hc
      cases hne : natDigits (a / 10) with
      | nil => exact absurd hne this
      | cons c cs => rw [hne] at hc; simp at hc
    · rw [if_neg ha, if_neg hb] at h
      obtain ⟨h1, h2⟩ := append_singleton_inj _ _ _ _ h
      have hmod : a % 10 = b % 10 :=
        digitChar_inj_lt _ _ (Nat.mod_lt _ (by omega)) (Nat.mod_lt _ (by omega)) h2
      have hdiv : a / 10 = b / 10 :=
        ih (a / 10) (Nat.div_lt_self (by omega) (by omega)) (b / 10) h1
      omega

lemma natRepr_inj (a b : Nat) (h : natRepr a = natRepr b) : a = b := by
  unfold natRepr at h
  injection h with h
  exact natDigits_inj a b h

/-! ## Filesystem operations (pathlib `mkdir`, `shutil.move`) -/

/-- `Path.mkdir(exist_ok=True)`: no-op when the directory exists, error when
a regular file occupies the path (Python raises `FileExistsError` there
even with `exist_ok=True`). -/
def FS.mkdirE (fs : FS) (p : Path) : Except String FS :=
  if fs.filePaths.contains p then .error ("FileExistsError: " ++ pathStr p)
  else if fs.dirs.contains p then .ok fs
  else .ok { fs with dirs := fs.dirs ++ [p] }

/-- `shutil.move(src, dest)`: relocate the file entry at `src` (metadata
travels with it); `FileNotFoundError` when `src` is not a regular file. -/
def FS.move (fs : FS) (src dest : Path) : Except String FS :=
  match fs.files.find? (fun e => e.path = src) with
  | none => .error ("No such file: " ++ pathStr src)
  | some e => .ok { fs with
      files := (fs.files.eraseP (fun x => x.path = src)) ++ [{ e with path := dest }] }

/-! ## sorter.py: `generate_unique_filename` and
`move_file_with_conflict_resolution` -/

/-- The probed candidate name for counter `k`:
`f"{name}_{counter}{ext}"`. -/
def uniqueCand (name ext : String) (k : Nat) : String :=
  name ++ "_" ++ natRepr k ++ ext

/-- The `while True` probe loop of `generate_unique_filename`, with fuel.
Python increments `counter` until `(dest_path / new_filename)` does not
exist; the loop always terminates because only finitely many paths exist,
and the fuel chosen below provably suffices (`gufProbe_spec` plus
`free_counter_exists`), so the fuel-exhausted branch is unreachable. -/
def gufProbe (fs : FS) (dest_path : Path) (name ext : String) :
    Nat → Nat → String
  | 0, counter => uniqueCand name ext counter
  | fuel + 1, counter =>
    if fs.existsPath (dest_path ++ [uniqueCand name ext counter]) then
      gufProbe fs dest_path name ext fuel (counter + 1)
    else uniqueCand name ext counter

/-- `generate_unique_filename(dest_path, filename)`: split the filename
into stem and extension, then probe `stem_1.ext, stem_2.ext, …`. -/
def generate_unique_filename (fs : FS) (dest_path : Path) (filename : String) :
    String :=
  let name := pathStem filename
  let ext := pathSuffix filename
  gufProbe fs dest_path name ext (fs.files.length + fs.dirs.length + 1) 1

/-- `move_file_with_conflict_resolution(src, dest, dry_run)`: dry-run
returns `dest` immediately; otherwise move straight to `dest` when free,
else to the conflict-resolved name in `dest.parent`. -/
def move_file_with_conflict_resolution (fs : FS) (src dest : Path)
    (dry_run : Bool) : Except String (FS × Path) :=
  if dry_run then .ok (fs, dest)
  else if !(fs.existsPath dest) then
    (fs.move src dest).map (fun fs' => (fs', dest))
  else
    let unique_filename := generate_unique_filename fs dest.dropLast (pathName dest)
    let unique_dest := dest.dropLast ++ [unique_filename]
    (fs.move src unique_dest).map (fun fs' => (fs', unique_dest))

/-! ## scanner.py -/

/-- `path.rglob('*')`: every recorded item (directory or file) strictly
below `path`. -/
def rglob (fs : FS) (path : Path) : List Path :=
  (fs.dirs ++ fs.filePaths).filter
    (fun item => path.isPrefixOf item && decide (path.length < item.length))

/-- `is_excluded_directory`: the path's final component is in the excluded
set. -/
def is_excluded_directory (path : Path) (exclude_dirs : List String) : Bool :=
  exclude_dirs.contains (pathName path)

/-- `scan_directory`: walk `rglob`, skip any item one of whose ancestors
(`item.parents`, which reaches up to the filesystem root) is excluded,
skip excluded directories themselves, and keep regular files. -/
def scan_directory (fs : FS) (path : Path) (exclude_dirs : List String) :
    List Path :=
  (rglob fs path).filter (fun item =>
    if (strictAncestors item).any
        (fun parent => is_excluded_directory parent exclude_dirs) then false
    else if fs.dirs.contains item && is_excluded_directory item exclude_dirs then false
    else fs.filePaths.contains item)

/-! ## Scanner semantics (C3) -/

/-- A path the scanner would return from `root` with exclusions `excl`
(apart from being a regular file): strictly below `root`, and no strict
ancestor — up to the filesystem root — has an excluded name. -/
def Scannable (root : Path) (excl : List String) (q : Path) : Prop :=
  root <+: q ∧ root.length < q.length ∧
    ∀ a ∈ strictAncestors q, pathName a ∉ excl

instance (root : Path) (excl : List String) (q : Path) :
    Decidable (Scannable root excl q) := by
  unfold Scannable
  infer_instance

lemma scan_directory_mem (fs : FS) (root : Path)
    (exclude_dirs : List String) (hwf : fs.WF) (q : Path) :
    q ∈ scan_directory fs root exclude_dirs ↔
      q ∈ fs.filePaths ∧ root <+: q ∧ root.length < q.length ∧
      ∀ a ∈ strictAncestors q, pathName a ∉ exclude_dirs := by
  unfold scan_directory rglob
  rw [List.mem_filter, List.mem_filter]
  constructor
  · rintro ⟨⟨_hmem, hpre⟩, hcond⟩
    rw [Bool.and_eq_true] at hpre
    by_cases hA : (strictAncestors q).any
        (fun parent => is_excluded_directory parent exclude_dirs) = true
    · rw [if_pos hA] at hcond
      exact absurd hcond (by simp)
    · rw [if_neg hA] at hcond
      have hfile : q ∈ fs.filePaths := by
        by_cases hB : (fs.dirs.contains q &&
            is_excluded_directory q exclude_dirs) = true
        · rw [if_pos hB] at hcond
          exact absurd hcond (by simp)
        · rw [if_neg hB] at hcond
          exact List.elem_iff.mp hcond
      refine ⟨hfile, List.isPrefixOf_iff_prefix.mp hpre.1, of_decide_eq_true hpre.2, ?_⟩
      intro a ha hmem
      apply hA
      rw [List.any_eq_true]
      refine ⟨a, ha, ?_⟩
      unfold is_excluded_directory
      exact List.elem_iff.mpr hmem
  · rintro ⟨hfile, hpre, hlen, hanc⟩
    have hA : (strictAncestors q).any
        (fun parent => is_excluded_directory parent exclude_dirs) = false := by
      rw [List.any_eq_false]
      intro a ha
      simp only [is_excluded_directory, Bool.not_eq_true]
      rw [← Bool.not_eq_true]
      intro hc
      exact hanc a ha (List.elem_iff.mp hc)
    have hB : fs.dirs.contains q = false := by
      rw [← Bool.not_eq_true]
      intro hc
      exact hwf.2.2 q hfile (List.elem_iff.mp hc)
    refine ⟨⟨List.mem_append_right _ hfile, ?_⟩, ?_⟩
    · rw [Bool.and_eq_true]
      exact ⟨List.isPrefixOf_iff_prefix.mpr hpre, decide_eq_true hlen⟩
    · rw [if_neg (by rw [hA]; simp), hB]
      simp only [Bool.false_and, if_false]
      exact List.elem_iff.mpr hfile

/-- C3 (amended).  Scanner exclusion semantics as the code implements them:
`scan_directory` returns exactly the regular files strictly below `root`
none of whose strict ancestors — `item.parents`, which includes `root`
itself and every directory above `root`, up to the filesystem root — has
a name in the excluded set.  (The claim's "root itself is always
traversed" is false on the code: see the counterexample.) -/
theorem c3_scan_characterization (fs : FS) (root : Path)
    (exclude_dirs : List String) (hwf : fs.WF) (q : Path) :
    q ∈ scan_directory fs root exclude_dirs ↔
      q ∈ fs.filePaths ∧ root <+: q ∧ root.length < q.length ∧
      ∀ a ∈ strictAncestors q, pathName a ∉ exclude_dirs :=
  scan_directory_mem fs root exclude_dirs hwf q

/-- Concrete tree for the C3 counterexample: a root directory `r`
containing one regular file `r/f.txt`. -/
def fsC3 : FS := ⟨[⟨["r", "f.txt"], 1, 0, 0, [], true⟩], [["r"]]⟩

/-- C3 counterexample: with the root's own name `"r"` in the excluded set,
`scan_directory` returns nothing, although `r/f.txt` is a regular file
under the root with no excluded ancestor below the root — the claim says
the root itself is always traversed, but the code tests every member of
`item.parents`, which includes the root.  With an empty excluded set the
same file is found. -/
theorem c3_counterexample :
    scan_directory fsC3 ["r"] ["r"] = [] ∧
    fsC3.filePaths = [["r", "f.txt"]] ∧
    scan_directory fsC3 ["r"] [] = [["r", "f.txt"]] := by
  decide

/-- Witness for C3: on `fsC3` with excluded set `["x"]` (not naming the
root), the characterization yields exactly the one file. -/
theorem c3_scan_characterization_witness :
    (["r", "f.txt"] : Path) ∈ scan_directory fsC3 ["r"] ["x"] :=
  (c3_scan_characterization fsC3 ["r"] ["x"] (by decide) ["r", "f.txt"]).mpr
    ⟨by decide, by decide, by decide, by decide⟩

/-! ## Dry-run behaviour of the mover (C4) -/

/-- C4 (amended).  Dry-run performs no filesystem mutation and returns the
*requested* destination path unchanged: conflict resolution is skipped
entirely in dry-run, so when the destination name is already taken the
dry-run return value differs from the real run's resolved path. -/
theorem c4_dry_run_no_mutation (fs : FS) (src dest : Path) :
    move_file_with_conflict_resolution fs src dest true = .ok (fs, dest) := by
  unfold move_file_with_conflict_resolution
  simp

/-- Concrete tree for the C4 counterexample: `root/b/dup.txt` is to be
moved to `root/msk/dup.txt`, where a file of that name already exists. -/
def fsC4 : FS :=
  ⟨[⟨["root", "b", "dup.txt"], 1, 0, 0, [], true⟩,
    ⟨["root", "msk", "dup.txt"], 2, 0, 0, [], true⟩],
   [["root"], ["root", "b"], ["root", "msk"]]⟩

/-- C4 counterexample: on a colliding destination, dry-run returns the
colliding original name `root/msk/dup.txt`, while the identical real run
returns the conflict-resolved `root/msk/dup_1.txt` — so the dry-run
return value is not the path a real run would use. -/
theorem c4_counterexample :
    move_file_with_conflict_resolution fsC4 ["root", "b", "dup.txt"]
      ["root", "msk", "dup.txt"] true = .ok (fsC4, ["root", "msk", "dup.txt"]) ∧
    (move_file_with_conflict_resolution fsC4 ["root", "b", "dup.txt"]
      ["root", "msk", "dup.txt"] false).map Prod.snd =
        .ok ["root", "msk", "dup_1.txt"] ∧
    (["root", "msk", "dup_1.txt"] : Path) ≠ ["root", "msk", "dup.txt"] := by
  decide

/-! ## Conflict resolution: smallest free suffix, no overwrite (C5) -/

/-- Counter `k` is free: the candidate name for `k` is absent from the
destination directory. -/
def FreeAt (fs : FS) (dest_path : Path) (name ext : String) (k : Nat) : Prop :=
  fs.existsPath (dest_path ++ [uniqueCand name ext k]) = false

instance (fs : FS) (dest_path : Path) (name ext : String) (k : Nat) :
    Decidable (FreeAt fs dest_path name ext k) := by
  unfold FreeAt
  infer_instance

lemma uniqueCand_inj (name ext : String) (j k : Nat)
    (h : uniqueCand name ext j = uniqueCand name ext k) : j = k := by
  unfold uniqueCand at h
  have hd := congrArg String.data h
  simp only [String.data_append] at hd
  have h1 := List.append_cancel_right hd
  have h2 := List.append_cancel_left h1
  exact natDigits_inj j k h2

lemma free_counter_exists (fs : FS) (dest_path : Path) (name ext : String) :
    ∃ k, 1 ≤ k ∧ k ≤ fs.files.length + fs.dirs.length + 1 ∧
      FreeAt fs dest_path name ext k := by
  by_contra hno
  push_neg at hno
  have hocc : ∀ k ∈ List.range' 1 (fs.files.length + fs.dirs.length + 1),
      (dest_path ++ [uniqueCand name ext k]) ∈ fs.filePaths ++ fs.dirs := by
    intro k hk
    rw [List.mem_range'_1] at hk
    have hnf := hno k (by omega) (by omega)
    unfold FreeAt FS.existsPath at hnf
    rw [Bool.not_eq_false, Bool.or_eq_true] at hnf
    rcases hnf with hc | hc
    · exact List.mem_append_left _ (List.elem_iff.mp hc)
    · exact List.mem_append_right _ (List.elem_iff.mp hc)
  have hnd : ((List.range' 1 (fs.files.length + fs.dirs.length + 1)).map
      (fun k => dest_path ++ [uniqueCand name ext k])).Nodup := by
    refine List.Nodup.map_on ?_ (List.nodup_range' _ _)
    intro j _ k _ hjk
    have := List.append_cancel_left hjk
    simp only [List.cons.injEq, and_true] at this
    exact uniqueCand_inj name ext j k this
  have hsub : ((List.range' 1 (fs.files.length + fs.dirs.length + 1)).map
      (fun k => dest_path ++ [uniqueCand name ext k])) ⊆
      fs.filePaths ++ fs.dirs := by
    intro x hx
    rw [List.mem_map] at hx
    obtain ⟨k, hk, rfl⟩ := hx
    exact hocc k hk
  have hle := (List.subperm_of_subset hnd hsub).length_le
  simp only [List.length_map, List.length_range', List.length_append,
    FS.filePaths, List.length_map] at hle
  omega

lemma gufProbe_spec (fs : FS) (dest_path : Path) (name ext : String) :
    ∀ fuel start, (∃ j, j < fuel ∧ FreeAt fs dest_path name ext (start + j)) →
    ∃ j, j < fuel ∧ FreeAt fs dest_path name ext (start + j) ∧
      (∀ i, i < j → ¬ FreeAt fs dest_path name ext (start + i)) ∧
      gufProbe fs dest_path name ext fuel start = uniqueCand name ext (start + j) := by
  intro fuel
  induction fuel with
  | zero =>
    rintro start ⟨j, hj, _⟩
    omega
  | succ f ih =>
    rintro start ⟨j, hj, hfree⟩
    by_cases hs : FreeAt fs dest_path name ext start
    · refine ⟨0, by omega, by simpa using hs, by omega, ?_⟩
      show (if fs.existsPath _ then _ else _) = _
      unfold FreeAt at hs
      rw [if_neg (by rw [hs]; simp)]
      rw [Nat.add_zero]
    · have hj0 : j ≠ 0 := by
        rintro rfl
        exact hs (by simpa using hfree)
      obtain ⟨j', hlt, hfree', hleast', heq⟩ := ih (start + 1)
        ⟨j - 1, by omega, by rw [show start + 1 + (j - 1) = start + j from by omega]; exact hfree⟩
      refine ⟨j' + 1, by omega,
        by rw [show start + (j' + 1) = start + 1 + j' from by omega]; exact hfree', ?_, ?_⟩
      · intro i hi
        match i with
        | 0 => simpa using hs
        | i + 1 =>
          have := hleast' i (by omega)
          rw [show start + 1 + i = start + (i + 1) from by omega] at this
          exact this
      · show (if fs.existsPath _ then _ else _) = _
        unfold FreeAt at hs
        rw [Bool.not_eq_false] at hs
        rw [if_pos hs, heq, show start + 1 + j' = start + (j' + 1) from by omega]

lemma generate_unique_filename_spec (fs : FS) (dest_path : Path)
    (filename : String) :
    ∃ k, 1 ≤ k ∧ FreeAt fs dest_path (pathStem filename) (pathSuffix filename) k ∧
      (∀ i, 1 ≤ i → i < k →
        ¬ FreeAt fs dest_path (pathStem filename) (pathSuffix filename) i) ∧
      generate_unique_filename fs dest_path filename =
        uniqueCand (pathStem filename) (pathSuffix filename) k := by
  obtain ⟨k0, hk1, hk2, hfree0⟩ :=
    free_counter_exists fs dest_path (pathStem filename) (pathSuffix filename)
  obtain ⟨j, _hj, hfree, hleast, heq⟩ :=
    gufProbe_spec fs dest_path (pathStem filename) (pathSuffix filename)
      (fs.files.length + fs.dirs.length + 1) 1
      ⟨k0 - 1, by omega, by rw [show 1 + (k0 - 1) = k0 from by omega]; exact hfree0⟩
  refine ⟨1 + j, by omega, hfree, ?_, heq⟩
  intro i h1 hlt
  have := hleast (i - 1) (by omega)
  rw [show 1 + (i - 1) = i from by omega] at this
  exact this

lemma not_mem_of_contains_false {α : Type} [BEq α] [LawfulBEq α] (l : List α)
    (a : α) (h : l.contains a = false) : a ∉ l := by
  intro hm
  have h2 : l.contains a = true := List.elem_iff.mpr hm
  rw [h] at h2
  exact Bool.false_ne_true h2

lemma move_ok_struct (fs : FS) (src dest : Path) (fs' : FS)
    (h : fs.move src dest = .ok fs') :
    ∃ e, fs.files.find? (fun x => x.path = src) = some e ∧ e.path = src ∧
      fs'.files = fs.files.eraseP (fun x => x.path = src) ++
        [{ e with path := dest }] ∧
      fs'.dirs = fs.dirs := by
  unfold FS.move at h
  cases hf : fs.files.find? (fun x => x.path = src) with
  | none =>
    rw [hf] at h
    exact absurd h (by simp)
  | some e =>
    rw [hf] at h
    injection h with h
    subst h
    refine ⟨e, rfl, ?_, rfl, rfl⟩
    have := List.find?_some hf
    simpa using this

lemma move_err (fs : FS) (src dest : Path) (h : src ∉ fs.filePaths) :
    fs.move src dest = .error ("No such file: " ++ pathStr src) := by
  unfold FS.move
  rw [List.find?_eq_none.mpr ?_]
  intro x hx
  simp only [decide_eq_true_eq]
  intro hpath
  exact h (by rw [← hpath]; exact List.mem_map_of_mem _ hx)

/-- C5.  No overwrite and sequential suffixing: a real (non-dry) successful
move never lands on a path that previously held a file; when the
requested destination exists, the resolved name is `stem_k.ext` for the
smallest `k ≥ 1` whose candidate is absent from the destination directory
(every smaller counter's candidate is present, i.e. the probe is
sequential from `_1` with no gap-filling); when the destination is free
the file goes exactly there; and after the move every other file survives
with its entry untouched while the moved file survives at the resolved
path, which is distinct from every other surviving path. -/
theorem c5_no_overwrite_sequential (fs : FS) (src dest : Path) (fs' : FS)
    (actual : Path)
    (h : move_file_with_conflict_resolution fs src dest false = .ok (fs', actual)) :
    actual ∉ fs.filePaths ∧
    (fs.existsPath dest = true →
      ∃ k, 1 ≤ k ∧
        actual = dest.dropLast ++
          [uniqueCand (pathStem (pathName dest)) (pathSuffix (pathName dest)) k] ∧
        fs.existsPath (dest.dropLast ++
          [uniqueCand (pathStem (pathName dest)) (pathSuffix (pathName dest)) k]) = false ∧
        (∀ i, 1 ≤ i → i < k → fs.existsPath (dest.dropLast ++
          [uniqueCand (pathStem (pathName dest)) (pathSuffix (pathName dest)) i]) = true)) ∧
    (fs.existsPath dest = false → actual = dest) ∧
    (∀ e ∈ fs.files, e.path ≠ src → e ∈ fs'.files) ∧
    (∃ e ∈ fs.files, e.path = src ∧ { e with path := actual } ∈ fs'.files) ∧
    (∀ e ∈ fs.files, e.path ≠ src → e.path ≠ actual) := by
  unfold move_file_with_conflict_resolution at h
  rw [if_neg (by simp)] at h
  have survive : ∀ (fs2 : FS) (tgt : Path), fs.move src tgt = .ok fs2 →
      (∀ e ∈ fs.files, e.path ≠ src → e ∈ fs2.files) ∧
      (∃ e ∈ fs.files, e.path = src ∧ { e with path := tgt } ∈ fs2.files) := by
    intro fs2 tgt hmv
    obtain ⟨e, hfind, hpath, hfiles, _⟩ := move_ok_struct fs src tgt fs2 hmv
    constructor
    · intro x hx hne
      rw [hfiles]
      refine List.mem_append_left _ ?_
      rw [List.mem_eraseP_of_neg (by simpa using hne)]
      exact hx
    · refine ⟨e, List.mem_of_find?_eq_some hfind, hpath, ?_⟩
      rw [hfiles]
      exact List.mem_append_right _ (by simp)
  by_cases hex : fs.existsPath dest = true
  · rw [if_neg (by rw [hex]; simp)] at h
    obtain ⟨k, hk1, hkfree, hkleast, heq⟩ :=
      generate_unique_filename_spec fs dest.dropLast (pathName dest)
    simp only [] at h
    rw [heq] at h
    cases hmv : fs.move src (dest.dropLast ++
        [uniqueCand (pathStem (pathName dest)) (pathSuffix (pathName dest)) k]) with
    | error e =>
      rw [hmv] at h
      exact absurd h (by simp [Except.map])
    | ok fs2 =>
      rw [hmv] at h
      simp only [Except.map, Except.ok.injEq, Prod.mk.injEq] at h
      obtain ⟨rfl, rfl⟩ := h
      have hfreeB : fs.existsPath (dest.dropLast ++
          [uniqueCand (pathStem (pathName dest)) (pathSuffix (pathName dest)) k]) = false :=
        hkfree
      have hnotfile : (dest.dropLast ++
          [uniqueCand (pathStem (pathName dest)) (pathSuffix (pathName dest)) k]) ∉
          fs.filePaths := by
        unfold FS.existsPath at hfreeB
        rw [Bool.or_eq_false_iff] at hfreeB
        exact not_mem_of_contains_false _ _ hfreeB.1
      obtain ⟨hs1, hs2⟩ := survive fs2 _ hmv
      refine ⟨hnotfile, ?_, ?_, hs1, hs2, ?_⟩
      · intro _
        refine ⟨k, hk1, rfl, hkfree, ?_⟩
        intro i hi1 hik
        have := hkleast i hi1 hik
        unfold FreeAt at this
        rw [Bool.not_eq_false] at this
        exact this
      · intro hc
        rw [hex] at hc
        exact absurd hc (by simp)
      · intro e he hne hpe
        exact hnotfile (hpe ▸ List.mem_map_of_mem _ he)
  · rw [Bool.not_eq_true] at hex
    rw [if_pos (by rw [hex]; simp)] at h
    cases hmv : fs.move src dest with
    | error e =>
      rw [hmv] at h
      exact absurd h (by simp [Except.map])
    | ok fs2 =>
      rw [hmv] at h
      simp only [Except.map, Except.ok.injEq, Prod.mk.injEq] at h
      obtain ⟨rfl, rfl⟩ := h
      have hnotfile : dest ∉ fs.filePaths := by
        unfold FS.existsPath at hex
        rw [Bool.or_eq_false_iff] at hex
        exact not_mem_of_contains_false _ _ hex.1
      obtain ⟨hs1, hs2⟩ := survive fs2 _ hmv
      refine ⟨hnotfile, ?_, fun _ => rfl, hs1, hs2, ?_⟩
      · intro hc
        rw [hex] at hc
        exact absurd hc (by simp)
      · intro e he hne hpe
        exact hnotfile (hpe ▸ List.mem_map_of_mem _ he)

/-- Concrete tree for the C5 witness: moving `root/b/dup.txt` onto the
occupied `root/msk/dup.txt` resolves to `root/msk/dup_1.txt`. -/
def fsC5 : FS :=
  ⟨[⟨["root", "b", "dup.txt"], 1, 0, 0, [], true⟩,
    ⟨["root", "msk", "dup.txt"], 2, 0, 0, [], true⟩],
   [["root"], ["root", "b"], ["root", "msk"]]⟩

/-- Witness for C5: on the concrete conflict the resolved path
`root/msk/dup_1.txt` did not previously hold a file. -/
theorem c5_no_overwrite_sequential_witness :
    (["root", "msk", "dup_1.txt"] : Path) ∉ fsC5.filePaths :=
  (c5_no_overwrite_sequential fsC5 ["root", "b", "dup.txt"]
    ["root", "msk", "dup.txt"]
    ⟨[⟨["root", "msk", "dup.txt"], 2, 0, 0, [], true⟩,
      ⟨["root", "msk", "dup_1.txt"], 1, 0, 0, [], true⟩],
     [["root"], ["root", "b"], ["root", "msk"]]⟩
    ["root", "msk", "dup_1.txt"] (by decide)).1

/-! ## sorter.py: statistics -/

/-- `SortingStats` (plain mode). -/
structure SortingStats where
  total_files : Nat := 0
  img_count : Nat := 0
  vid_count : Nat := 0
  arc_count : Nat := 0
  msk_count : Nat := 0
deriving DecidableEq, Repr

/-- `SortingStats.increment`: `total_files += 1`, then bump the matching
category counter (the `elif` chain covers all four enum members). -/
def SortingStats.increment (s : SortingStats) (category : FileCategory) :
    SortingStats :=
  let s := { s with total_files := s.total_files + 1 }
  match category with
  | .image => { s with img_count := s.img_count + 1 }
  | .video => { s with vid_count := s.vid_count + 1 }
  | .archiveCat => { s with arc_count := s.arc_count + 1 }
  | .misc => { s with msk_count := s.msk_count + 1 }

/-- `FileOperation` record (the wall-clock `timestamp` and optional `hash`
fields are not modelled; no claim reads them). -/
structure FileOperation where
  source : Path
  destination : Path
  category : String
  size : Nat
deriving DecidableEq, Repr

/-- `EnhancedSortingStats`; the Python dicts `size_categories` and
`date_categories` become insertion-ordered association lists. -/
structure EnhancedSortingStats where
  total_files : Nat := 0
  img_count : Nat := 0
  vid_count : Nat := 0
  arc_count : Nat := 0
  msk_count : Nat := 0
  excluded_by_filters : Nat := 0
  duplicates_found : Nat := 0
  space_saved : Nat := 0
  size_categories : List (String × Nat) := []
  date_categories : List (String × Nat) := []
  operations : List FileOperation := []
  errors : List String := []
deriving DecidableEq, Repr

/-- `EnhancedSortingStats.increment`: same update as the plain version. -/
def EnhancedSortingStats.increment (s : EnhancedSortingStats)
    (category : FileCategory) : EnhancedSortingStats :=
  let s := { s with total_files := s.total_files + 1 }
  match category with
  | .image => { s with img_count := s.img_count + 1 }
  | .video => { s with vid_count := s.vid_count + 1 }
  | .archiveCat => { s with arc_count := s.arc_count + 1 }
  | .misc => { s with msk_count := s.msk_count + 1 }

/-- The Python idiom `if key not in d: d[key] = 0` followed by
`d[key] += 1`, on an insertion-ordered association list. -/
def bumpCategory (m : List (String × Nat)) (key : String) :
    List (String × Nat) :=
  if m.any (fun kv => kv.1 = key) then
    m.map (fun kv => if kv.1 = key then (kv.1, kv.2 + 1) else kv)
  else m ++ [(key, 1)]

/-- `file_path.stat().st_size if file_path.exists() else 0` (after a real
move the source path no longer exists, so this records 0). -/
def statSizeOrZero (fs : FS) (p : Path) : Nat :=
  match fs.files.find? (fun e => e.path = p) with
  | some e => e.size
  | none => 0

/-- The per-file error record
`f"Error processing {file_path}: {str(e)}"`. -/
def processingError (file_path : Path) (e : String) : String :=
  "Error processing " ++ pathStr file_path ++ ": " ++ e

/-- `mkdir(parents=True, exist_ok=True)` step list: attempt each ancestor
shortest-first, stopping at the first failure but keeping the directories
already created (as Python does). -/
def mkdirAll : List Path → FS → FS × Option String
  | [], fs => (fs, none)
  | d :: rest, fs =>
    match fs.mkdirE d with
    | .ok fs1 => mkdirAll rest fs1
    | .error e => (fs, some e)

/-- `Path.mkdir(parents=True, exist_ok=True)`. -/
def FS.mkdirParents (fs : FS) (p : Path) : FS × Option String :=
  mkdirAll ((List.range p.length).map (fun n => p.take (n + 1))) fs

/-! ## date_classifier.py -/

/-- `classify_by_date`: read `st_ctime` or `st_mtime` and format it.  The
formatter `fmt` (format template and raw timestamp to string) models the
standard library `datetime.fromtimestamp(..).strftime(..)`. -/
def classify_by_date (fmt : String → Nat → String) (fs : FS)
    (file_path : Path) (use_creation : Bool) (date_format : String) :
    Except String String :=
  match fs.files.find? (fun e => e.path = file_path) with
  | none => .error ("No such file: " ++ pathStr file_path)
  | some e => .ok (fmt date_format (if use_creation then e.ctime else e.mtime))

/-! ## sorter.py: the orchestrator loops

Each `sort_files*` function scans, then runs a per-file loop.  The loops
below take the scanned list as an explicit argument, decoupling it from
the filesystem value threaded through the loop: a file that vanished
between scan and processing is simply a list element absent from `fs`.
The presentation collaborators (`log_file_operation`, progress callbacks)
produce no data the core reads and are not modelled; `sort_files` is
modelled in its `record_operations=False` form. -/

/-- The per-file loop of `sort_files` (plain mode).  No `try/except`
surrounds the body in the source, so any failure aborts the loop. -/
def sort_files_loop (source_path : Path) (dry_run : Bool) :
    List Path → FS → SortingStats → Except String (FS × SortingStats)
  | [], fs, stats => .ok (fs, stats)
  | file_path :: rest, fs, stats =>
    let category := classify_file (pathName file_path)
    let dest_folder := source_path ++ [category.value]
    match (if dry_run then Except.ok fs else fs.mkdirE dest_folder) with
    | .error e => .error e
    | .ok fs1 =>
      match move_file_with_conflict_resolution fs1 file_path
          (dest_folder ++ [pathName file_path]) dry_run with
      | .error e => .error e
      | .ok (fs2, _actual_dest) =>
        sort_files_loop source_path dry_run rest fs2 (stats.increment category)

/-- `sort_files`: scan with the category folders excluded, then loop. -/
def sort_files (fs : FS) (source_path : Path) (dry_run : Bool) :
    Except String (FS × SortingStats) :=
  let exclude_dirs := ["img", "vid", "arc", "msk"]
  let files := scan_directory fs source_path exclude_dirs
  sort_files_loop source_path dry_run files fs {}

/-- The per-file loop of `sort_files_with_size`: classify by size and
type, `mkdir -p`, move, record the operation, bump the counters; the
whole body is wrapped in `try/except` appending to `stats.errors`. -/
def sort_files_with_size_loop (source_path : Path) (thresholds : SizeThresholds)
    (dry_run : Bool) :
    List Path → FS → EnhancedSortingStats → FS × EnhancedSortingStats
  | [], fs, stats => (fs, stats)
  | file_path :: rest, fs, stats =>
    match classify_by_size fs file_path thresholds with
    | .error e => sort_files_with_size_loop source_path thresholds dry_run rest fs
        { stats with errors := stats.errors ++ [processingError file_path e] }
    | .ok size_category =>
      let type_category := classify_file (pathName file_path)
      let dest_folder := source_path ++ [size_category.value, type_category.value]
      match (if dry_run then (fs, none) else fs.mkdirParents dest_folder) with
      | (fs1, some e) => sort_files_with_size_loop source_path thresholds dry_run rest fs1
          { stats with errors := stats.errors ++ [processingError file_path e] }
      | (fs1, none) =>
        match move_file_with_conflict_resolution fs1 file_path
            (dest_folder ++ [pathName file_path]) dry_run with
        | .error e => sort_files_with_size_loop source_path thresholds dry_run rest fs1
            { stats with errors := stats.errors ++ [processingError file_path e] }
        | .ok (fs2, actual_dest) =>
          let file_size := statSizeOrZero fs2 file_path
          let stats1 := { stats with operations := stats.operations ++
            [(⟨file_path, actual_dest,
              size_category.value ++ "/" ++ type_category.value, file_size⟩ : FileOperation)] }
          let stats2 := stats1.increment type_category
          let stats3 := { stats2 with
            size_categories := bumpCategory stats2.size_categories size_category.value }
          sort_files_with_size_loop source_path thresholds dry_run rest fs2 stats3

/-- `sort_files_with_size`: scan with category and size folders excluded,
then loop. -/
def sort_files_with_size (fs : FS) (source_path : Path)
    (thresholds : SizeThresholds) (dry_run : Bool) :
    FS × EnhancedSortingStats :=
  let exclude_dirs := ["img", "vid", "arc", "msk", "small", "medium", "large"]
  let files := scan_directory fs source_path exclude_dirs
  sort_files_with_size_loop source_path thresholds dry_run files fs {}

/-- The per-file loop of `sort_files_with_date`: destination is
`date_folder/type_category`; body wrapped in `try/except`. -/
def sort_files_with_date_loop (fmt : String → Nat → String)
    (source_path : Path) (use_creation : Bool) (date_format : String)
    (dry_run : Bool) :
    List Path → FS → EnhancedSortingStats → FS × EnhancedSortingStats
  | [], fs, stats => (fs, stats)
  | file_path :: rest, fs, stats =>
    match classify_by_date fmt fs file_path use_creation date_format with
    | .error e => sort_files_with_date_loop fmt source_path use_creation date_format
        dry_run rest fs
        { stats with errors := stats.errors ++ [processingError file_path e] }
    | .ok date_folder =>
      let type_category := classify_file (pathName file_path)
      let dest_folder := source_path ++ [date_folder, type_category.value]
      match (if dry_run then (fs, none) else fs.mkdirParents dest_folder) with
      | (fs1, some e) => sort_files_with_date_loop fmt source_path use_creation
          date_format dry_run rest fs1
          { stats with errors := stats.errors ++ [processingError file_path e] }
      | (fs1, none) =>
        match move_file_with_conflict_resolution fs1 file_path
            (dest_folder ++ [pathName file_path]) dry_run with
        | .error e => sort_files_with_date_loop fmt source_path use_creation
            date_format dry_run rest fs1
            { stats with errors := stats.errors ++ [processingError file_path e] }
        | .ok (fs2, actual_dest) =>
          let file_size := statSizeOrZero fs2 file_path
          let stats1 := { stats with operations := stats.operations ++
            [(⟨file_path, actual_dest,
              date_folder ++ "/" ++ type_category.value, file_size⟩ : FileOperation)] }
          let stats2 := stats1.increment type_category
          let stats3 := { stats2 with
            date_categories := bumpCategory stats2.date_categories date_folder }
          sort_files_with_date_loop fmt source_path use_creation date_format
            dry_run rest fs2 stats3

/-- `sort_files_with_date`: scan with only the four category folders
excluded (date folders are not excluded), then loop. -/
def sort_files_with_date (fmt : String → Nat → String) (fs : FS)
    (source_path : Path) (use_creation : Bool) (date_format : String)
    (dry_run : Bool) : FS × EnhancedSortingStats :=
  let exclude_dirs := ["img", "vid", "arc", "msk"]
  let files := scan_directory fs source_path exclude_dirs
  sort_files_with_date_loop fmt source_path use_creation date_format dry_run
    files fs {}

/-- The per-file loop of `sort_files_archive_mode`: destination is
`date_folder/type_category` when `with_type_hierarchy`, else the flat
`date_folder`; the type is still classified for statistics; body wrapped
in `try/except`. -/
def sort_files_archive_mode_loop (fmt : String → Nat → String)
    (source_path : Path) (use_creation : Bool) (date_format : String)
    (with_type_hierarchy : Bool) (dry_run : Bool) :
    List Path → FS → EnhancedSortingStats → FS × EnhancedSortingStats
  | [], fs, stats => (fs, stats)
  | file_path :: rest, fs, stats =>
    match classify_by_date fmt fs file_path use_creation date_format with
    | .error e => sort_files_archive_mode_loop fmt source_path use_creation
        date_format with_type_hierarchy dry_run rest fs
        { stats with errors := stats.errors ++ [processingError file_path e] }
    | .ok date_folder =>
      let type_category := classify_file (pathName file_path)
      let dest_folder := if with_type_hierarchy then
          source_path ++ [date_folder, type_category.value]
        else source_path ++ [date_folder]
      let category_str := if with_type_hierarchy then
          date_folder ++ "/" ++ type_category.value
        else date_folder
      match (if dry_run then (fs, none) else fs.mkdirParents dest_folder) with
      | (fs1, some e) => sort_files_archive_mode_loop fmt source_path use_creation
          date_format with_type_hierarchy dry_run rest fs1
          { stats with errors := stats.errors ++ [processingError file_path e] }
      | (fs1, none) =>
        match move_file_with_conflict_resolution fs1 file_path
            (dest_folder ++ [pathName file_path]) dry_run with
        | .error e => sort_files_archive_mode_loop fmt source_path use_creation
            date_format with_type_hierarchy dry_run rest fs1
            { stats with errors := stats.errors ++ [processingError file_path e] }
        | .ok (fs2, actual_dest) =>
          let file_size := statSizeOrZero fs2 file_path
          let stats1 := { stats with operations := stats.operations ++
            [(⟨file_path, actual_dest, category_str, file_size⟩ : FileOperation)] }
          let stats2 := stats1.increment type_category
          let stats3 := { stats2 with
            date_categories := bumpCategory stats2.date_categories date_folder }
          sort_files_archive_mode_loop fmt source_path use_creation date_format
            with_type_hierarchy dry_run rest fs2 stats3

/-- `sort_files_archive_mode`: scan with only the four category folders
excluded (the date-bucket destination folders are not excluded), then
loop. -/
def sort_files_archive_mode (fmt : String → Nat → String) (fs : FS)
    (source_path : Path) (use_creation : Bool) (date_format : String)
    (with_type_hierarchy : Bool) (dry_run : Bool) :
    FS × EnhancedSortingStats :=
  let exclude_dirs := ["img", "vid", "arc", "msk"]
  let files := scan_directory fs source_path exclude_dirs
  sort_files_archive_mode_loop fmt source_path use_creation date_format
    with_type_hierarchy dry_run files fs {}

/-! ## duplicates.py -/

/-- Python exception kinds distinguished by `duplicates.py`:
`ValueError` propagates out of `find_duplicates`, while `OSError`
(unreadable file) is caught there and the file skipped. -/
inductive PyError
  | valueErr (msg : String)
  | osErr (msg : String)
deriving DecidableEq, Repr

/-- The open-and-stream part of `compute_hash`: read the file's bytes in
chunks and feed them to the selected hasher.  The `digest` parameter
(algorithm name and content bytes to hex string) models the standard
library `hashlib` digests; chunking is observationally the digest of the
whole content. -/
def hashFileStream (digest : String → List Nat → String) (fs : FS)
    (file_path : Path) (alg : String) : Except PyError String :=
  match fs.files.find? (fun e => e.path = file_path) with
  | none => .error (.osErr ("No such file: " ++ pathStr file_path))
  | some e =>
    if e.readable then .ok (digest alg e.content)
    else .error (.osErr ("Cannot read: " ++ pathStr file_path))

/-- `compute_hash`: select the hasher from the lowercased algorithm name
*before* touching the file; an unsupported name raises `ValueError`
without any I/O. -/
def compute_hash (digest : String → List Nat → String) (fs : FS)
    (file_path : Path) (algorithm : String) : Except PyError String :=
  if strLower algorithm = "md5" then hashFileStream digest fs file_path "md5"
  else if strLower algorithm = "sha256" then
    hashFileStream digest fs file_path "sha256"
  else .error (.valueErr ("Unsupported hash algorithm: " ++ algorithm))

/-- The Python idiom `if h not in d: d[h] = []` followed by
`d[h].append(p)`, on an insertion-ordered association list. -/
def addHashGroup (m : List (String × List Path)) (h : String) (p : Path) :
    List (String × List Path) :=
  if m.any (fun g => g.1 = h) then
    m.map (fun g => if g.1 = h then (g.1, g.2 ++ [p]) else g)
  else m ++ [(h, [p])]

/-- The hashing loop of `find_duplicates`: hash each file, skipping
files whose read raises `OSError`; a `ValueError` (unsupported algorithm)
is not caught and propagates. -/
def find_duplicates_loop (digest : String → List Nat → String) (fs : FS)
    (algorithm : String) :
    List Path → List (String × List Path) →
      Except PyError (List (String × List Path))
  | [], m => .ok m
  | file_path :: rest, m =>
    match compute_hash digest fs file_path algorithm with
    | .ok file_hash =>
      find_duplicates_loop digest fs algorithm rest (addHashGroup m file_hash file_path)
    | .error (.osErr _) => find_duplicates_loop digest fs algorithm rest m
    | .error (.valueErr e) => .error (.valueErr e)

/-- `find_duplicates`: group files by hash, then retain only the groups
with more than one member. -/
def find_duplicates (digest : String → List Nat → String) (fs : FS)
    (files : List Path) (algorithm : String) :
    Except PyError (List (String × List Path)) :=
  (find_duplicates_loop digest fs algorithm files []).map
    (fun m => m.filter (fun g => g.2.length > 1))

/-- `calculate_space_saved`: for each group of more than one member, add
the first member's size times the number of members beyond the first;
a failed `stat` on the first member skips the group. -/
def calculate_space_saved (fs : FS)
    (duplicates : List (String × List Path)) : Nat :=
  duplicates.foldl (fun total_saved g =>
    if g.2.length > 1 then
      match g.2.head? with
      | some p0 =>
        match fs.files.find? (fun e => e.path = p0) with
        | some e => total_saved + e.size * (g.2.length - 1)
        | none => total_saved
      | none => total_saved
    else total_saved) 0

/-- The per-file loop of `sort_files_with_duplicates`: files in the
duplicate set route to `duplicates/` with a `_duplicate` name suffix,
others to their type category; only non-duplicates increment the main
counters; body wrapped in `try/except`. -/
def sort_files_with_duplicates_loop (dup_files : List Path)
    (source_path : Path) (dry_run : Bool) :
    List Path → FS → EnhancedSortingStats → FS × EnhancedSortingStats
  | [], fs, stats => (fs, stats)
  | file_path :: rest, fs, stats =>
    let is_dup := dup_files.contains file_path
    let type_category := classify_file (pathName file_path)
    let dest_folder := if is_dup then source_path ++ ["duplicates"]
      else source_path ++ [type_category.value]
    let dest_name := if is_dup then
        pathStem (pathName file_path) ++ "_duplicate" ++ pathSuffix (pathName file_path)
      else pathName file_path
    let category_str := if is_dup then "duplicates" else type_category.value
    match (if dry_run then Except.ok fs else fs.mkdirE dest_folder) with
    | .error e => sort_files_with_duplicates_loop dup_files source_path dry_run rest fs
        { stats with errors := stats.errors ++ [processingError file_path e] }
    | .ok fs1 =>
      match move_file_with_conflict_resolution fs1 file_path
          (dest_folder ++ [dest_name]) dry_run with
      | .error e => sort_files_with_duplicates_loop dup_files source_path dry_run rest fs1
          { stats with errors := stats.errors ++ [processingError file_path e] }
      | .ok (fs2, actual_dest) =>
        let stats1 := { stats with operations := stats.operations ++
          [(⟨file_path, actual_dest, category_str,
            statSizeOrZero fs2 file_path⟩ : FileOperation)] }
        let stats2 := if is_dup then stats1 else stats1.increment type_category
        sort_files_with_duplicates_loop dup_files source_path dry_run rest fs2 stats2

/-- `sort_files_with_duplicates`: scan (excluding the category folders
and `duplicates`), find the duplicate groups, mark every member but the
first of each group, pre-fill the space/duplicate statistics, then loop.
A `ValueError` from `find_duplicates` propagates out of the run. -/
def sort_files_with_duplicates (digest : String → List Nat → String)
    (fs : FS) (source_path : Path) (hash_algorithm : String)
    (dry_run : Bool) : Except PyError (FS × EnhancedSortingStats) :=
  let exclude_dirs := ["img", "vid", "arc", "msk", "duplicates"]
  let files := scan_directory fs source_path exclude_dirs
  match find_duplicates digest fs files hash_algorithm with
  | .error e => .error e
  | .ok duplicates =>
    let dup_files := (duplicates.map (fun g => g.2.drop 1)).flatten
    let stats0 : EnhancedSortingStats :=
      { space_saved := calculate_space_saved fs duplicates,
        duplicates_found := dup_files.length }
    .ok (sort_files_with_duplicates_loop dup_files source_path dry_run files fs stats0)

/-! ## Per-file error isolation (C2) -/

lemma contains_false_iff {α : Type} [BEq α] [LawfulBEq α] (l : List α) (a : α) :
    l.contains a = false ↔ a ∉ l := by
  constructor
  · exact not_mem_of_contains_false l a
  · intro h
    rw [← Bool.not_eq_true]
    intro hc
    exact h (List.elem_iff.mp hc)

lemma find_path_none (fs : FS) (p : Path) (h : p ∉ fs.filePaths) :
    fs.files.find? (fun e => e.path = p) = none := by
  rw [List.find?_eq_none]
  intro e he
  simp only [decide_eq_true_eq]
  intro hpath
  exact h (by rw [← hpath]; exact List.mem_map_of_mem _ he)

lemma mfcr_err (fs : FS) (src dest : Path) (h : src ∉ fs.filePaths) :
    move_file_with_conflict_resolution fs src dest false =
      .error ("No such file: " ++ pathStr src) := by
  unfold move_file_with_conflict_resolution
  rw [if_neg (by simp)]
  by_cases hex : fs.existsPath dest = true
  · rw [if_neg (by rw [hex]; simp)]
    simp only []
    rw [move_err fs src _ h]
    rfl
  · rw [Bool.not_eq_true] at hex
    rw [if_pos (by rw [hex]; simp)]
    rw [move_err fs src _ h]
    rfl

lemma mkdirE_ok (fs : FS) (d : Path) (h : d ∉ fs.filePaths) :
    ∃ fs1, fs.mkdirE d = .ok fs1 ∧ fs1.files = fs.files ∧
      (fs1.dirs = fs.dirs ∨ (fs1.dirs = fs.dirs ++ [d] ∧ d ∉ fs.dirs)) := by
  unfold FS.mkdirE
  rw [if_neg (by rw [(contains_false_iff _ _).mpr h]; simp)]
  by_cases hd : fs.dirs.contains d = true
  · rw [if_pos hd]
    exact ⟨fs, rfl, rfl, Or.inl rfl⟩
  · rw [Bool.not_eq_true] at hd
    rw [if_neg (by rw [hd]; simp)]
    exact ⟨_, rfl, rfl, Or.inr ⟨rfl, (contains_false_iff _ _).mp hd⟩⟩

lemma mkdirE_wf (fs fs1 : FS) (d : Path) (h : fs.mkdirE d = .ok fs1) :
    fs1.files = fs.files ∧ (fs.WF → fs1.WF) := by
  unfold FS.mkdirE at h
  by_cases h1 : fs.filePaths.contains d = true
  · rw [if_pos h1] at h
    exact absurd h (by simp)
  · rw [Bool.not_eq_true] at h1
    rw [if_neg (by rw [h1]; simp)] at h
    by_cases h2 : fs.dirs.contains d = true
    · rw [if_pos h2] at h
      injection h with h
      subst h
      exact ⟨rfl, id⟩
    · rw [Bool.not_eq_true] at h2
      rw [if_neg (by rw [h2]; simp)] at h
      injection h with h
      subst h
      refine ⟨rfl, fun hwf => ⟨hwf.1, ?_, ?_⟩⟩
      · refine List.Nodup.append hwf.2.1 (List.nodup_singleton d) ?_
        intro x hx hx2
        simp only [List.mem_singleton] at hx2
        subst hx2
        exact not_mem_of_contains_false _ _ h2 hx
      · intro p hp hpd
        rcases List.mem_append.mp hpd with hx | hx
        · exact hwf.2.2 p hp hx
        · simp only [List.mem_singleton] at hx
          subst hx
          exact not_mem_of_contains_false _ _ h1 hp

lemma classify_by_size_vanished (fs : FS) (p : Path) (t : SizeThresholds)
    (h : p ∉ fs.filePaths) :
    classify_by_size fs p t = .error ("No such file: " ++ pathStr p) := by
  unfold classify_by_size get_file_size
  rw [find_path_none fs p h]

lemma classify_by_date_vanished (fmt : String → Nat → String) (fs : FS)
    (p : Path) (uc : Bool) (df : String) (h : p ∉ fs.filePaths) :
    classify_by_date fmt fs p uc df =
      .error ("No such file: " ++ pathStr p) := by
  unfold classify_by_date
  rw [find_path_none fs p h]

/-- C2 (amended).  Per-file error isolation holds in the size, date,
archive and duplicate modes — their loops catch the per-file exception,
record `"Error processing <file>: <message>"` into the error list, and
continue with the remaining files (in the duplicate mode, on the tree as
left by the already-performed `mkdir`) — but *not* in the plain-mode
`sort_files`, whose loop has no per-file handler: there a vanished
file's move failure aborts the whole run with the raw error. -/
theorem c2_error_isolation (source_path : Path) (file_path : Path) :
    (∀ rest (fs : FS) stats, file_path ∉ fs.filePaths →
      (source_path ++ [(classify_file (pathName file_path)).value]) ∉ fs.filePaths →
      sort_files_loop source_path false (file_path :: rest) fs stats =
        .error ("No such file: " ++ pathStr file_path)) ∧
    (∀ thresholds rest (fs : FS) stats, file_path ∉ fs.filePaths →
      sort_files_with_size_loop source_path thresholds false
          (file_path :: rest) fs stats =
        sort_files_with_size_loop source_path thresholds false rest fs
          { stats with errors := stats.errors ++
            [processingError file_path ("No such file: " ++ pathStr file_path)] }) ∧
    (∀ fmt use_creation date_format rest (fs : FS) stats,
      file_path ∉ fs.filePaths →
      sort_files_with_date_loop fmt source_path use_creation date_format false
          (file_path :: rest) fs stats =
        sort_files_with_date_loop fmt source_path use_creation date_format false
          rest fs
          { stats with errors := stats.errors ++
            [processingError file_path ("No such file: " ++ pathStr file_path)] }) ∧
    (∀ fmt use_creation date_format with_type rest (fs : FS) stats,
      file_path ∉ fs.filePaths →
      sort_files_archive_mode_loop fmt source_path use_creation date_format
          with_type false (file_path :: rest) fs stats =
        sort_files_archive_mode_loop fmt source_path use_creation date_format
          with_type false rest fs
          { stats with errors := stats.errors ++
            [processingError file_path ("No such file: " ++ pathStr file_path)] }) ∧
    (∀ dup_files rest (fs : FS) stats (fs1 : FS),
      file_path ∉ fs.filePaths →
      fs.mkdirE (if dup_files.contains file_path then
          source_path ++ ["duplicates"]
        else source_path ++ [(classify_file (pathName file_path)).value]) =
        .ok fs1 →
      sort_files_with_duplicates_loop dup_files source_path false
          (file_path :: rest) fs stats =
        sort_files_with_duplicates_loop dup_files source_path false rest fs1
          { stats with errors := stats.errors ++
            [processingError file_path ("No such file: " ++ pathStr file_path)] }) := by
  refine ⟨?_, ?_, ?_, ?_, ?_⟩
  · intro rest fs stats hvan hnc
    obtain ⟨fs1, hmk, hfiles, _⟩ := mkdirE_ok fs _ hnc
    have hfp : fs1.filePaths = fs.filePaths := by
      unfold FS.filePaths
      rw [hfiles]
    simp only [sort_files_loop, Bool.false_eq_true, if_false, hmk]
    rw [mfcr_err fs1 file_path _ (by rw [hfp]; exact hvan)]
  · intro thresholds rest fs stats hvan
    simp only [sort_files_with_size_loop,
      classify_by_size_vanished fs file_path thresholds hvan]
  · intro fmt use_creation date_format rest fs stats hvan
    simp only [sort_files_with_date_loop,
      classify_by_date_vanished fmt fs file_path use_creation date_format hvan]
  · intro fmt use_creation date_format with_type rest fs stats hvan
    simp only [sort_files_archive_mode_loop,
      classify_by_date_vanished fmt fs file_path use_creation date_format hvan]
  · intro dup_files rest fs stats fs1 hvan hmk
    have hfp : fs1.filePaths = fs.filePaths := by
      unfold FS.filePaths
      rw [(mkdirE_wf fs fs1 _ hmk).1]
    simp only [sort_files_with_duplicates_loop, Bool.false_eq_true, if_false,
      hmk]
    rw [mfcr_err fs1 file_path _ (by rw [hfp]; exact hvan)]

/-- The filesystem as the plain/size loops encounter it in the C2
scenario: the scan listed `root/ghost.txt`, but that file vanished before
processing; `root/a.jpg` is still present. -/
def fsC2 : FS :=
  ⟨[⟨["root", "a.jpg"], 5, 0, 0, [], true⟩], [["root"]]⟩

/-- C2 counterexample: on the same scanned list with a vanished first
file, the plain-mode loop aborts with the raw move error (the remaining
`root/a.jpg` is never processed and no statistics survive), while the
size-mode loop on identical input records the error and still processes
`root/a.jpg` — so error isolation does not hold in every mode as claimed.
-/
theorem c2_counterexample :
    sort_files_loop ["root"] false
        [["root", "ghost.txt"], ["root", "a.jpg"]] fsC2 {} =
      .error "No such file: root/ghost.txt" ∧
    (sort_files_with_size_loop ["root"] {} false
        [["root", "ghost.txt"], ["root", "a.jpg"]] fsC2 {}).2.total_files = 1 ∧
    (sort_files_with_size_loop ["root"] {} false
        [["root", "ghost.txt"], ["root", "a.jpg"]] fsC2 {}).2.errors =
      ["Error processing root/ghost.txt: No such file: root/ghost.txt"] := by
  decide

/-- Witness for C2: the size-mode equation applied to the concrete
vanished file `root/ghost.txt` on `fsC2`. -/
theorem c2_error_isolation_witness :
    sort_files_with_size_loop ["root"] {} false [["root", "ghost.txt"]] fsC2 {} =
      sort_files_with_size_loop ["root"] {} false [] fsC2
        { errors := ["Error processing root/ghost.txt: No such file: root/ghost.txt"] } :=
  (c2_error_isolation ["root"] ["root", "ghost.txt"]).2.1 {} [] fsC2 {}
    (by decide)

/-! ## Statistics consistency (C6) -/

/-- Sum of the four per-category counters. -/
def catSumP (s : SortingStats) : Nat :=
  s.img_count + s.vid_count + s.arc_count + s.msk_count

/-- Sum of the four per-category counters. -/
def catSumE (s : EnhancedSortingStats) : Nat :=
  s.img_count + s.vid_count + s.arc_count + s.msk_count

/-- Sum of the per-bucket counts of a bucket map. -/
def sumVals (m : List (String × Nat)) : Nat := (m.map Prod.snd).sum

/-- The bucket keys of a bucket map. -/
def keysOf (m : List (String × Nat)) : List String := m.map Prod.fst

lemma map_bump_eq_self (m : List (String × Nat)) (key : String)
    (h : ∀ kv ∈ m, kv.1 ≠ key) :
    m.map (fun kv => if kv.1 = key then (kv.1, kv.2 + 1) else kv) = m := by
  induction m with
  | nil => rfl
  | cons kv t ih =>
    simp only [List.map_cons]
    rw [if_neg (h kv (by simp)), ih (fun x hx => h x (by simp [hx]))]

lemma bump_sum (m : List (String × Nat)) (key : String)
    (hnd : (keysOf m).Nodup) : sumVals (bumpCategory m key) = sumVals m + 1 := by
  induction m with
  | nil => simp [bumpCategory, sumVals]
  | cons kv t ih =>
    rw [keysOf, List.map_cons, List.nodup_cons] at hnd
    by_cases hk : kv.1 = key
    · have hany : (kv :: t).any (fun g => g.1 = key) = true := by
        simp [List.any_cons, hk]
      unfold bumpCategory
      rw [if_pos hany]
      simp only [List.map_cons, if_pos hk]
      have ht : t.map (fun g => if g.1 = key then (g.1, g.2 + 1) else g) = t := by
        apply map_bump_eq_self
        intro x hx hxk
        apply hnd.1
        rw [hk, ← hxk]
        exact List.mem_map_of_mem Prod.fst hx
      rw [ht]
      simp [sumVals]
      omega
    · by_cases hat : t.any (fun g => g.1 = key) = true
      · have hany : (kv :: t).any (fun g => g.1 = key) = true := by
          simp only [List.any_cons, hat, Bool.or_true]
        unfold bumpCategory
        rw [if_pos hany]
        simp only [List.map_cons, if_neg hk]
        have ih' := ih hnd.2
        unfold bumpCategory at ih'
        rw [if_pos hat] at ih'
        simp only [sumVals, List.map_cons, List.sum_cons] at ih' ⊢
        omega
      · have hany : (kv :: t).any (fun g => g.1 = key) = false := by
          rw [List.any_cons]
          rw [Bool.not_eq_true] at hat
          rw [hat]
          simp [hk]
        unfold bumpCategory
        rw [if_neg (by rw [hany]; simp)]
        simp [sumVals]
        omega

lemma bump_keys (m : List (String × Nat)) (key : String) :
    keysOf (bumpCategory m key) = keysOf m ∨
    (keysOf (bumpCategory m key) = keysOf m ++ [key] ∧ key ∉ keysOf m) := by
  unfold bumpCategory
  by_cases h : m.any (fun g => g.1 = key) = true
  · rw [if_pos h]
    left
    unfold keysOf
    rw [List.map_map]
    apply List.map_congr_left
    intro kv _
    by_cases hk : kv.1 = key
    · simp [hk]
    · simp [hk]
  · rw [Bool.not_eq_true] at h
    rw [if_neg (by rw [h]; simp)]
    right
    constructor
    · simp [keysOf]
    · intro hmem
      rw [keysOf, List.mem_map] at hmem
      obtain ⟨kv, hkv, hfst⟩ := hmem
      have : m.any (fun g => g.1 = key) = true := by
        rw [List.any_eq_true]
        exact ⟨kv, hkv, by simp [hfst]⟩
      rw [h] at this
      exact Bool.false_ne_true this

lemma bump_keys_nodup (m : List (String × Nat)) (key : String)
    (hnd : (keysOf m).Nodup) : (keysOf (bumpCategory m key)).Nodup := by
  rcases bump_keys m key with h | ⟨h, hnm⟩ <;> rw [h]
  · exact hnd
  · refine List.Nodup.append hnd (List.nodup_singleton key) ?_
    intro x hx hx2
    simp only [List.mem_singleton] at hx2
    subst hx2
    exact hnm hx

lemma size_loop_sums (source_path : Path) (thresholds : SizeThresholds)
    (dry_run : Bool) : ∀ (files : List Path) (fs : FS)
    (stats : EnhancedSortingStats),
    catSumE stats = stats.total_files →
    sumVals stats.size_categories = stats.total_files →
    (keysOf stats.size_categories).Nodup →
    catSumE (sort_files_with_size_loop source_path thresholds dry_run files fs stats).2 =
      (sort_files_with_size_loop source_path thresholds dry_run files fs stats).2.total_files ∧
    sumVals (sort_files_with_size_loop source_path thresholds dry_run files fs stats).2.size_categories =
      (sort_files_with_size_loop source_path thresholds dry_run files fs stats).2.total_files := by
  intro files
  induction files with
  | nil =>
    intro fs stats h1 h2 _h3
    exact ⟨h1, h2⟩
  | cons p rest ih =>
    intro fs stats h1 h2 h3
    simp only [sort_files_with_size_loop]
    split
    · exact ih _ _ h1 h2 h3
    · split
      · exact ih _ _ h1 h2 h3
      · split
        · exact ih _ _ h1 h2 h3
        · cases hic : classify_file (pathName p) <;>
          · refine ih _ _ ?_ ?_ ?_
            · simp only [catSumE, EnhancedSortingStats.increment] at h1 ⊢
              omega
            · simp only [EnhancedSortingStats.increment]
              rw [bump_sum _ _ h3, h2]
            · exact bump_keys_nodup _ _ h3

lemma date_loop_sums (fmt : String → Nat → String) (source_path : Path)
    (use_creation : Bool) (date_format : String) (dry_run : Bool) :
    ∀ (files : List Path) (fs : FS) (stats : EnhancedSortingStats),
    catSumE stats = stats.total_files →
    sumVals stats.date_categories = stats.total_files →
    (keysOf stats.date_categories).Nodup →
    catSumE (sort_files_with_date_loop fmt source_path use_creation date_format
        dry_run files fs stats).2 =
      (sort_files_with_date_loop fmt source_path use_creation date_format
        dry_run files fs stats).2.total_files ∧
    sumVals (sort_files_with_date_loop fmt source_path use_creation date_format
        dry_run files fs stats).2.date_categories =
      (sort_files_with_date_loop fmt source_path use_creation date_format
        dry_run files fs stats).2.total_files := by
  intro files
  induction files with
  | nil =>
    intro fs stats h1 h2 _h3
    exact ⟨h1, h2⟩
  | cons p rest ih =>
    intro fs stats h1 h2 h3
    simp only [sort_files_with_date_loop]
    split
    · exact ih _ _ h1 h2 h3
    · split
      · exact ih _ _ h1 h2 h3
      · split
        · exact ih _ _ h1 h2 h3
        · cases hic : classify_file (pathName p) <;>
          · refine ih _ _ ?_ ?_ ?_
            · simp only [catSumE, EnhancedSortingStats.increment] at h1 ⊢
              omega
            · simp only [EnhancedSortingStats.increment]
              rw [bump_sum _ _ h3, h2]
            · exact bump_keys_nodup _ _ h3

lemma archive_loop_sums (fmt : String → Nat → String) (source_path : Path)
    (use_creation : Bool) (date_format : String) (with_type : Bool)
    (dry_run : Bool) :
    ∀ (files : List Path) (fs : FS) (stats : EnhancedSortingStats),
    catSumE stats = stats.total_files →
    sumVals stats.date_categories = stats.total_files →
    (keysOf stats.date_categories).Nodup →
    catSumE (sort_files_archive_mode_loop fmt source_path use_creation
        date_format with_type dry_run files fs stats).2 =
      (sort_files_archive_mode_loop fmt source_path use_creation date_format
        with_type dry_run files fs stats).2.total_files ∧
    sumVals (sort_files_archive_mode_loop fmt source_path use_creation
        date_format with_type dry_run files fs stats).2.date_categories =
      (sort_files_archive_mode_loop fmt source_path use_creation date_format
        with_type dry_run files fs stats).2.total_files := by
  intro files
  induction files with
  | nil =>
    intro fs stats h1 h2 _h3
    exact ⟨h1, h2⟩
  | cons p rest ih =>
    intro fs stats h1 h2 h3
    simp only [sort_files_archive_mode_loop]
    split
    · exact ih _ _ h1 h2 h3
    · split
      · exact ih _ _ h1 h2 h3
      · split
        · exact ih _ _ h1 h2 h3
        · cases hic : classify_file (pathName p) <;>
          · refine ih _ _ ?_ ?_ ?_
            · simp only [catSumE, EnhancedSortingStats.increment] at h1 ⊢
              omega
            · simp only [EnhancedSortingStats.increment]
              rw [bump_sum _ _ h3, h2]
            · exact bump_keys_nodup _ _ h3

lemma dup_loop_catsum (dup_files : List Path) (source_path : Path)
    (dry_run : Bool) :
    ∀ (files : List Path) (fs : FS) (stats : EnhancedSortingStats),
    catSumE stats = stats.total_files →
    catSumE (sort_files_with_duplicates_loop dup_files source_path dry_run
        files fs stats).2 =
      (sort_files_with_duplicates_loop dup_files source_path dry_run
        files fs stats).2.total_files := by
  intro files
  induction files with
  | nil =>
    intro fs stats h1
    exact h1
  | cons p rest ih =>
    intro fs stats h1
    simp only [sort_files_with_duplicates_loop]
    split
    · exact ih _ _ h1
    · split
      · exact ih _ _ h1
      · refine ih _ _ ?_
        split
        · exact h1
        · cases hic : classify_file (pathName p) <;>
          · simp only [catSumE, EnhancedSortingStats.increment] at h1 ⊢
            omega

lemma plain_loop_catsum (source_path : Path) (dry_run : Bool) :
    ∀ (files : List Path) (fs : FS) (stats : SortingStats) (fs' : FS)
      (st' : SortingStats),
    catSumP stats = stats.total_files →
    sort_files_loop source_path dry_run files fs stats = .ok (fs', st') →
    catSumP st' = st'.total_files := by
  intro files
  induction files with
  | nil =>
    intro fs stats fs' st' h1 hok
    simp only [sort_files_loop, Except.ok.injEq, Prod.mk.injEq] at hok
    obtain ⟨_, rfl⟩ := hok
    exact h1
  | cons p rest ih =>
    intro fs stats fs' st' h1 hok
    simp only [sort_files_loop] at hok
    split at hok
    · exact absurd hok (by simp)
    · split at hok
      · exact absurd hok (by simp)
      · refine ih _ _ _ _ ?_ hok
        cases hic : classify_file (pathName p) <;>
        · simp only [catSumP, SortingStats.increment] at h1 ⊢
          omega

/-- C6.  Statistics consistency: for every run of every sorting mode the
returned statistics satisfy
`img_count + vid_count + arc_count + msk_count = total_files`, and in the
size mode the bucket counts of `size_categories`, and in the date and
archive modes those of `date_categories`, also sum to `total_files`;
each per-file update preserves this because `increment` adds exactly 1 to
`total_files` and to exactly one category counter, and each bucket update
adds exactly 1 to one bucket. -/
theorem c6_statistics_consistency :
    (∀ (fs : FS) (source_path : Path) (dry_run : Bool) (fs' : FS)
        (st : SortingStats),
      sort_files fs source_path dry_run = .ok (fs', st) →
      st.img_count + st.vid_count + st.arc_count + st.msk_count =
        st.total_files) ∧
    (∀ (fs : FS) (source_path : Path) (t : SizeThresholds) (dry_run : Bool),
      (sort_files_with_size fs source_path t dry_run).2.img_count +
        (sort_files_with_size fs source_path t dry_run).2.vid_count +
        (sort_files_with_size fs source_path t dry_run).2.arc_count +
        (sort_files_with_size fs source_path t dry_run).2.msk_count =
        (sort_files_with_size fs source_path t dry_run).2.total_files ∧
      sumVals (sort_files_with_size fs source_path t dry_run).2.size_categories =
        (sort_files_with_size fs source_path t dry_run).2.total_files) ∧
    (∀ (fmt : String → Nat → String) (fs : FS) (source_path : Path)
        (use_creation : Bool) (date_format : String) (dry_run : Bool),
      (sort_files_with_date fmt fs source_path use_creation date_format
          dry_run).2.img_count +
        (sort_files_with_date fmt fs source_path use_creation date_format
          dry_run).2.vid_count +
        (sort_files_with_date fmt fs source_path use_creation date_format
          dry_run).2.arc_count +
        (sort_files_with_date fmt fs source_path use_creation date_format
          dry_run).2.msk_count =
        (sort_files_with_date fmt fs source_path use_creation date_format
          dry_run).2.total_files ∧
      sumVals (sort_files_with_date fmt fs source_path use_creation
          date_format dry_run).2.date_categories =
        (sort_files_with_date fmt fs source_path use_creation date_format
          dry_run).2.total_files) ∧
    (∀ (fmt : String → Nat → String) (fs : FS) (source_path : Path)
        (use_creation : Bool) (date_format : String) (with_type dry_run : Bool),
      (sort_files_archive_mode fmt fs source_path use_creation date_format
          with_type dry_run).2.img_count +
        (sort_files_archive_mode fmt fs source_path use_creation date_format
          with_type dry_run).2.vid_count +
        (sort_files_archive_mode fmt fs source_path use_creation date_format
          with_type dry_run).2.arc_count +
        (sort_files_archive_mode fmt fs source_path use_creation date_format
          with_type dry_run).2.msk_count =
        (sort_files_archive_mode fmt fs source_path use_creation date_format
          with_type dry_run).2.total_files ∧
      sumVals (sort_files_archive_mode fmt fs source_path use_creation
          date_format with_type dry_run).2.date_categories =
        (sort_files_archive_mode fmt fs source_path use_creation date_format
          with_type dry_run).2.total_files) ∧
    (∀ (digest : String → List Nat → String) (fs : FS) (source_path : Path)
        (alg : String) (dry_run : Bool) (fs' : FS)
        (st : EnhancedSortingStats),
      sort_files_with_duplicates digest fs source_path alg dry_run =
        .ok (fs', st) →
      st.img_count + st.vid_count + st.arc_count + st.msk_count =
        st.total_files) := by
  refine ⟨?_, ?_, ?_, ?_, ?_⟩
  · intro fs source_path dry_run fs' st hok
    exact plain_loop_catsum source_path dry_run _ fs {} fs' st rfl hok
  · intro fs source_path t dry_run
    exact size_loop_sums source_path t dry_run _ fs {} rfl rfl (by simp [keysOf])
  · intro fmt fs source_path use_creation date_format dry_run
    exact date_loop_sums fmt source_path use_creation date_format dry_run _ fs {}
      rfl rfl (by simp [keysOf])
  · intro fmt fs source_path use_creation date_format with_type dry_run
    exact archive_loop_sums fmt source_path use_creation date_format with_type
      dry_run _ fs {} rfl rfl (by simp [keysOf])
  · intro digest fs source_path alg dry_run fs' st hok
    unfold sort_files_with_duplicates at hok
    simp only [] at hok
    split at hok
    · exact absurd hok (by simp)
    · rw [Except.ok.injEq] at hok
      have h2 := congrArg Prod.snd hok
      simp only [Prod.snd] at h2
      rw [← h2]
      exact dup_loop_catsum _ source_path dry_run _ fs _ rfl

/-- Concrete tree for the C6 witness: one image file under `root`. -/
def fsC6 : FS := ⟨[⟨["root", "a.jpg"], 5, 0, 0, [], true⟩], [["root"]]⟩

/-- Witness for C6: the plain-mode run on `fsC6` yields statistics
`⟨1, 1, 0, 0, 0⟩`, whose category counters sum to its total. -/
theorem c6_statistics_consistency_witness :
    (⟨1, 1, 0, 0, 0⟩ : SortingStats).img_count +
      (⟨1, 1, 0, 0, 0⟩ : SortingStats).vid_count +
      (⟨1, 1, 0, 0, 0⟩ : SortingStats).arc_count +
      (⟨1, 1, 0, 0, 0⟩ : SortingStats).msk_count =
      (⟨1, 1, 0, 0, 0⟩ : SortingStats).total_files :=
  c6_statistics_consistency.1 fsC6 ["root"] false
    ⟨[⟨["root", "img", "a.jpg"], 5, 0, 0, [], true⟩],
     [["root"], ["root", "img"]]⟩
    ⟨1, 1, 0, 0, 0⟩ (by decide)

/-! ## Idempotent re-sort (C1): support lemmas -/

lemma take_append_two (xs : List String) (a b : String) :
    (xs ++ [a, b]).take (xs.length + 1) = xs ++ [a] := by
  rw [List.take_append_eq_append_take]
  rw [List.take_of_length_le (by omega)]
  congr 1
  rw [show xs.length + 1 - xs.length = 1 from by omega]
  rfl

lemma getLastD_concat_str (a : String) : ∀ (xs : List String) (d : String),
    (xs ++ [a]).getLastD d = a := by
  intro xs
  induction xs with
  | nil => intro d; rfl
  | cons x t ih =>
    intro d
    rw [List.cons_append, List.getLastD_cons]
    exact ih x

lemma pathName_concat (xs : List String) (a : String) :
    pathName (xs ++ [a]) = a := by
  unfold pathName
  exact getLastD_concat_str a xs ""

lemma not_scannable_excl (root pre : Path) (cv nm : String)
    (excl : List String) (hcv : cv ∈ excl) :
    ¬ Scannable root excl (root ++ pre ++ [cv] ++ [nm]) := by
  rintro ⟨_, _, hanc⟩
  have hshape : root ++ pre ++ [cv] ++ [nm] = (root ++ pre) ++ [cv, nm] := by
    simp
  have hmem : (root ++ pre) ++ [cv] ∈
      strictAncestors (root ++ pre ++ [cv] ++ [nm]) := by
    unfold strictAncestors
    rw [List.mem_map]
    refine ⟨(root ++ pre).length + 1, ?_, ?_⟩
    · rw [List.mem_range]
      simp
      omega
    · rw [hshape]
      exact take_append_two _ _ _
  have := hanc _ hmem
  rw [pathName_concat] at this
  exact this hcv

lemma mem_eraseP_eq {α : Type} [DecidableEq α] :
    ∀ (l : List α) (a x : α), l.Nodup →
      (x ∈ l.eraseP (fun y => y = a) ↔ x ∈ l ∧ x ≠ a) := by
  intro l
  induction l with
  | nil => simp
  | cons b t ih =>
    intro a x hnd
    rw [List.nodup_cons] at hnd
    by_cases hb : b = a
    · subst hb
      rw [List.eraseP_cons, show (decide (b = b)) = true from by simp,
        Bool.cond_true]
      constructor
      · intro hx
        exact ⟨List.mem_cons_of_mem _ hx, fun he => hnd.1 (he ▸ hx)⟩
      · rintro ⟨hx, hne⟩
        rcases List.mem_cons.mp hx with h | h
        · exact absurd h hne
        · exact h
    · rw [List.eraseP_cons, show (decide (b = a)) = false from by simp [hb],
        Bool.cond_false]
      rw [List.mem_cons, ih a x hnd.2, List.mem_cons]
      constructor
      · rintro (rfl | ⟨hx, hne⟩)
        · exact ⟨Or.inl rfl, hb⟩
        · exact ⟨Or.inr hx, hne⟩
      · rintro ⟨rfl | hx, hne⟩
        · exact Or.inl rfl
        · exact Or.inr ⟨hx, hne⟩

lemma map_eraseP_path (l : List FileEntry) (src : Path) :
    (l.eraseP (fun x => x.path = src)).map (fun e => e.path) =
      (l.map (fun e => e.path)).eraseP (fun x => x = src) := by
  induction l with
  | nil => rfl
  | cons e t ih =>
    by_cases h : e.path = src
    · simp [List.eraseP_cons, h]
    · simp [List.eraseP_cons, h, ih]

lemma mfcr_ok_core (fs : FS) (src : Path) (df : Path) (dn : String)
    (fs2 : FS) (actual : Path)
    (h : move_file_with_conflict_resolution fs src (df ++ [dn]) false =
      .ok (fs2, actual)) :
    fs.existsPath actual = false ∧ fs2.dirs = fs.dirs ∧
    (∃ e, fs.files.find? (fun x => x.path = src) = some e ∧ e.path = src ∧
      fs2.files = fs.files.eraseP (fun x => x.path = src) ++
        [{ e with path := actual }]) ∧
    ∃ nm, actual = df ++ [nm] := by
  unfold move_file_with_conflict_resolution at h
  rw [if_neg (by simp)] at h
  by_cases hex : fs.existsPath (df ++ [dn]) = true
  · rw [if_neg (by rw [hex]; simp)] at h
    obtain ⟨k, _, hkfree, _, heq⟩ :=
      generate_unique_filename_spec fs (df ++ [dn]).dropLast (pathName (df ++ [dn]))
    simp only [] at h
    rw [heq] at h
    have hdl : (df ++ [dn]).dropLast = df := by
      rw [show df ++ [dn] = df ++ [dn] ++ [] from by simp]
      simp
    cases hmv : fs.move src ((df ++ [dn]).dropLast ++
        [uniqueCand (pathStem (pathName (df ++ [dn])))
          (pathSuffix (pathName (df ++ [dn]))) k]) with
    | error e =>
      rw [hmv] at h
      exact absurd h (by simp [Except.map])
    | ok fsm =>
      rw [hmv] at h
      simp only [Except.map, Except.ok.injEq, Prod.mk.injEq] at h
      obtain ⟨rfl, rfl⟩ := h
      obtain ⟨e, hfind, hpath, hfiles, hdirs⟩ := move_ok_struct _ _ _ _ hmv
      refine ⟨?_, hdirs, ⟨e, hfind, hpath, hfiles⟩, ?_⟩
      · unfold FreeAt at hkfree
        exact hkfree
      · rw [hdl]
        exact ⟨_, rfl⟩
  · rw [Bool.not_eq_true] at hex
    rw [if_pos (by rw [hex]; simp)] at h
    cases hmv : fs.move src (df ++ [dn]) with
    | error e =>
      rw [hmv] at h
      exact absurd h (by simp [Except.map])
    | ok fsm =>
      rw [hmv] at h
      simp only [Except.map, Except.ok.injEq, Prod.mk.injEq] at h
      obtain ⟨rfl, rfl⟩ := h
      obtain ⟨e, hfind, hpath, hfiles, hdirs⟩ := move_ok_struct _ _ _ _ hmv
      exact ⟨hex, hdirs, ⟨e, hfind, hpath, hfiles⟩, dn, rfl⟩

lemma existsPath_false_parts (fs : FS) (p : Path)
    (h : fs.existsPath p = false) : p ∉ fs.filePaths ∧ p ∉ fs.dirs := by
  unfold FS.existsPath at h
  rw [Bool.or_eq_false_iff] at h
  exact ⟨not_mem_of_contains_false _ _ h.1, not_mem_of_contains_false _ _ h.2⟩

lemma mfcr_filePaths_wf (fs : FS) (src : Path) (df : Path) (dn : String)
    (fs2 : FS) (actual : Path) (hwf : fs.WF)
    (h : move_file_with_conflict_resolution fs src (df ++ [dn]) false =
      .ok (fs2, actual)) :
    fs2.WF ∧
    fs2.filePaths = fs.filePaths.eraseP (fun x => x = src) ++ [actual] ∧
    (∃ nm, actual = df ++ [nm]) := by
  obtain ⟨hfree, hdirs, ⟨e, _, _, hfiles⟩, hshape⟩ :=
    mfcr_ok_core fs src df dn fs2 actual h
  obtain ⟨hnf, hnd⟩ := existsPath_false_parts fs actual hfree
  have hfp : fs2.filePaths =
      fs.filePaths.eraseP (fun x => x = src) ++ [actual] := by
    unfold FS.filePaths
    rw [hfiles, List.map_append, map_eraseP_path]
    rfl
  refine ⟨⟨?_, ?_, ?_⟩, hfp, hshape⟩
  · rw [hfp]
    refine List.Nodup.append ?_ (List.nodup_singleton actual) ?_
    · exact hwf.1.sublist (List.eraseP_sublist _)
    · intro x hx hx2
      simp only [List.mem_singleton] at hx2
      subst hx2
      exact hnf ((List.eraseP_sublist _).subset hx)
  · rw [hdirs]
    exact hwf.2.1
  · intro p hp
    rw [hdirs]
    rw [hfp] at hp
    rcases List.mem_append.mp hp with hx | hx
    · exact hwf.2.2 p ((List.eraseP_sublist _).subset hx)
    · simp only [List.mem_singleton] at hx
      subst hx
      exact hnd

lemma mkdirAll_facts : ∀ (ds : List Path) (fs : FS),
    (mkdirAll ds fs).1.files = fs.files ∧
    (fs.WF → (mkdirAll ds fs).1.WF) := by
  intro ds
  induction ds with
  | nil => exact fun fs => ⟨rfl, id⟩
  | cons d rest ih =>
    intro fs
    simp only [mkdirAll]
    cases hmk : fs.mkdirE d with
    | error e => exact ⟨rfl, id⟩
    | ok fs1 =>
      obtain ⟨hfiles, hwf⟩ := mkdirE_wf fs fs1 d hmk
      obtain ⟨hfiles2, hwf2⟩ := ih fs1
      exact ⟨hfiles2.trans hfiles, fun h => hwf2 (hwf h)⟩

lemma mkdirParents_facts (fs : FS) (p : Path) :
    (fs.mkdirParents p).1.files = fs.files ∧
    (fs.WF → (fs.mkdirParents p).1.WF) :=
  mkdirAll_facts _ fs

lemma scan_empty_of_not_scannable (fs : FS) (root : Path)
    (excl : List String) (hwf : fs.WF)
    (h : ∀ q ∈ fs.filePaths, ¬ Scannable root excl q) :
    scan_directory fs root excl = [] := by
  rw [List.eq_nil_iff_forall_not_mem]
  intro q hq
  rw [scan_directory_mem fs root excl hwf q] at hq
  exact h q hq.1 ⟨hq.2.1, hq.2.2.1, hq.2.2.2⟩

lemma scannable_of_scan_conditions (fs : FS) (root : Path)
    (excl : List String) (hwf : fs.WF) (q : Path) (hq : q ∈ fs.filePaths) :
    ¬ Scannable root excl q ∨ q ∈ scan_directory fs root excl := by
  by_cases hs : Scannable root excl q
  · right
    rw [scan_directory_mem fs root excl hwf q]
    exact ⟨hq, hs.1, hs.2.1, hs.2.2⟩
  · exact Or.inl hs

lemma cat_value_mem (c : FileCategory) :
    c.value ∈ ["img", "vid", "arc", "msk"] := by
  cases c <;> simp [FileCategory.value]

lemma incE_errors (s : EnhancedSortingStats) (c : FileCategory) :
    (s.increment c).errors = s.errors := by
  cases c <;> rfl

lemma plain_loop_hidden (source_path : Path) :
    ∀ (todo : List Path) (fs : FS) (stats : SortingStats) (fs' : FS)
      (st' : SortingStats),
    fs.WF →
    (∀ q ∈ fs.filePaths,
      ¬ Scannable source_path ["img", "vid", "arc", "msk"] q ∨ q ∈ todo) →
    sort_files_loop source_path false todo fs stats = .ok (fs', st') →
    fs'.WF ∧ ∀ q ∈ fs'.filePaths,
      ¬ Scannable source_path ["img", "vid", "arc", "msk"] q := by
  intro todo
  induction todo with
  | nil =>
    intro fs stats fs' st' hwf hinv hok
    simp only [sort_files_loop, Except.ok.injEq, Prod.mk.injEq] at hok
    obtain ⟨rfl, -⟩ := hok
    exact ⟨hwf, fun q hq => (hinv q hq).resolve_right (List.not_mem_nil q)⟩
  | cons p rest ih =>
    intro fs stats fs' st' hwf hinv hok
    simp only [sort_files_loop, Bool.false_eq_true, if_false] at hok
    split at hok
    · exact absurd hok (by simp)
    · next fs1 hmk =>
      split at hok
      · exact absurd hok (by simp)
      · next fs2 actual hmv =>
        obtain ⟨hfiles1, hwf1f⟩ := mkdirE_wf fs fs1 _ hmk
        have hwf1 := hwf1f hwf
        have hfp1 : fs1.filePaths = fs.filePaths := by
          unfold FS.filePaths
          rw [hfiles1]
        obtain ⟨hwf2, hfp2, nm, hshape⟩ := mfcr_filePaths_wf fs1 p
          (source_path ++ [(classify_file (pathName p)).value]) (pathName p)
          fs2 actual hwf1 hmv
        refine ih fs2 _ fs' st' hwf2 ?_ hok
        intro q hq
        rw [hfp2, List.mem_append] at hq
        rcases hq with hq | hq
        · rw [hfp1, mem_eraseP_eq _ _ _ hwf.1] at hq
          obtain ⟨hqmem, hqne⟩ := hq
          rcases hinv q hqmem with hns | hmem
          · exact Or.inl hns
          · rcases List.mem_cons.mp hmem with rfl | h
            · exact absurd rfl hqne
            · exact Or.inr h
        · simp only [List.mem_singleton] at hq
          subst hq
          left
          rw [hshape]
          have := not_scannable_excl source_path []
            ((classify_file (pathName p)).value) nm _ (cat_value_mem _)
          simpa using this

lemma date_loop_errors (fmt : String → Nat → String) (sp : Path)
    (uc : Bool) (df : String) :
    ∀ (todo : List Path) (fs : FS) (stats : EnhancedSortingStats),
      ∃ ex, (sort_files_with_date_loop fmt sp uc df false todo fs stats).2.errors
        = stats.errors ++ ex := by
  intro todo
  induction todo with
  | nil =>
    intro fs stats
    exact ⟨[], by simp [sort_files_with_date_loop]⟩
  | cons p rest ih =>
    intro fs stats
    simp only [sort_files_with_date_loop]
    split
    · next e heq =>
      obtain ⟨ex, hex⟩ := ih fs _
      exact ⟨[processingError p e] ++ ex, by rw [hex]; simp⟩
    · next date_folder heq =>
      split
      · next fs1 e2 heq2 =>
        obtain ⟨ex, hex⟩ := ih fs1 _
        exact ⟨[processingError p e2] ++ ex, by rw [hex]; simp⟩
      · next fs1 heq2 =>
        split
        · next e3 heq3 =>
          obtain ⟨ex, hex⟩ := ih fs1 _
          exact ⟨[processingError p e3] ++ ex, by rw [hex]; simp⟩
        · next fs2 actual heq3 =>
          obtain ⟨ex, hex⟩ := ih fs2 _
          refine ⟨ex, ?_⟩
          rw [hex, incE_errors]

lemma date_loop_hidden (fmt : String → Nat → String) (sp : Path)
    (uc : Bool) (df : String) :
    ∀ (todo : List Path) (fs : FS) (stats : EnhancedSortingStats),
    fs.WF →
    (∀ q ∈ fs.filePaths,
      ¬ Scannable sp ["img", "vid", "arc", "msk"] q ∨ q ∈ todo) →
    ((sort_files_with_date_loop fmt sp uc df false todo fs stats).2.errors =
        stats.errors →
      (sort_files_with_date_loop fmt sp uc df false todo fs stats).1.WF ∧
      ∀ q ∈ (sort_files_with_date_loop fmt sp uc df false todo fs
          stats).1.filePaths,
        ¬ Scannable sp ["img", "vid", "arc", "msk"] q) := by
  intro todo
  induction todo with
  | nil =>
    intro fs stats hwf hinv _herr
    exact ⟨hwf, fun q hq => (hinv q hq).resolve_right (List.not_mem_nil q)⟩
  | cons p rest ih =>
    intro fs stats hwf hinv
    simp only [sort_files_with_date_loop]
    split
    · next e heq =>
      intro herr
      obtain ⟨ex, hex⟩ := date_loop_errors fmt sp uc df rest fs _
      rw [hex] at herr
      exfalso
      have hl := congrArg List.length herr
      simp only [List.length_append, List.length_cons, List.length_nil] at hl
      omega
    · next date_folder heq =>
      split
      · next fs1 e2 heq2 =>
        intro herr
        obtain ⟨ex, hex⟩ := date_loop_errors fmt sp uc df rest fs1 _
        rw [hex] at herr
        exfalso
        have hl := congrArg List.length herr
        simp only [List.length_append, List.length_cons, List.length_nil] at hl
        omega
      · next fs1 heq2 =>
        split
        · next e3 heq3 =>
          intro herr
          obtain ⟨ex, hex⟩ := date_loop_errors fmt sp uc df rest fs1 _
          rw [hex] at herr
          exfalso
          have hl := congrArg List.length herr
          simp only [List.length_append, List.length_cons, List.length_nil] at hl
          omega
        · next fs2 actual heq3 =>
          intro herr
          have hmkp : fs.mkdirParents
              (sp ++ [date_folder, (classify_file (pathName p)).value]) =
              (fs1, none) := by
            simpa using heq2
          have hfiles1 : fs1.files = fs.files := by
            have h := (mkdirParents_facts fs
              (sp ++ [date_folder, (classify_file (pathName p)).value])).1
            rw [hmkp] at h
            exact h
          have hwf1 : fs1.WF := by
            have h := (mkdirParents_facts fs
              (sp ++ [date_folder, (classify_file (pathName p)).value])).2 hwf
            rw [hmkp] at h
            exact h
          have hfp1 : fs1.filePaths = fs.filePaths := by
            unfold FS.filePaths
            rw [hfiles1]
          obtain ⟨hwf2, hfp2, nm, hshape⟩ := mfcr_filePaths_wf fs1 p
            (sp ++ [date_folder, (classify_file (pathName p)).value])
            (pathName p) fs2 actual hwf1 heq3
          refine ih fs2 _ hwf2 ?_ (by rw [herr, incE_errors])
          intro q hq
          rw [hfp2, List.mem_append] at hq
          rcases hq with hq | hq
          · rw [hfp1, mem_eraseP_eq _ _ _ hwf.1] at hq
            obtain ⟨hqmem, hqne⟩ := hq
            rcases hinv q hqmem with hns | hmem
            · exact Or.inl hns
            · rcases List.mem_cons.mp hmem with rfl | h
              · exact absurd rfl hqne
              · exact Or.inr h
          · simp only [List.mem_singleton] at hq
            subst hq
            left
            rw [hshape]
            have := not_scannable_excl sp [date_folder]
              ((classify_file (pathName p)).value) nm _ (cat_value_mem _)
            simpa [List.append_assoc] using this

/-- C1 (amended).  Idempotent re-sort holds for the plain mode — whose
destination folder names `img/vid/arc/msk` are exactly the excluded scan
names — and for the date-hierarchy mode, whose files land under excluded
type-category leaf folders: after a successful (respectively error-free)
first run, the second run's scan is empty, so it re-ingests nothing and
its total-files-processed is 0.  It fails for the flat archive mode,
whose destination folders are date-bucket names that are *not* in its
excluded set (see the counterexample). -/
theorem c1_idempotent_resort :
    (∀ (fs : FS) (source_path : Path) (fs' : FS) (st' : SortingStats),
      fs.WF → sort_files fs source_path false = .ok (fs', st') →
      scan_directory fs' source_path ["img", "vid", "arc", "msk"] = [] ∧
      sort_files fs' source_path false = .ok (fs', ⟨0, 0, 0, 0, 0⟩)) ∧
    (∀ (fmt : String → Nat → String) (fs : FS) (source_path : Path)
        (use_creation : Bool) (date_format : String) (fs' : FS)
        (st' : EnhancedSortingStats),
      fs.WF →
      sort_files_with_date fmt fs source_path use_creation date_format false =
        (fs', st') →
      st'.errors = [] →
      scan_directory fs' source_path ["img", "vid", "arc", "msk"] = [] ∧
      sort_files_with_date fmt fs' source_path use_creation date_format false =
        (fs', {})) := by
  constructor
  · intro fs sp fs' st' hwf hok
    unfold sort_files at hok
    simp only [] at hok
    have hhid := plain_loop_hidden sp _ fs {} fs' st' hwf
      (fun q hq => scannable_of_scan_conditions fs sp _ hwf q hq) hok
    have hempty := scan_empty_of_not_scannable fs' sp _ hhid.1 hhid.2
    refine ⟨hempty, ?_⟩
    unfold sort_files
    simp only []
    rw [hempty]
    rfl
  · intro fmt fs sp uc df fs' st' hwf hpair herr0
    unfold sort_files_with_date at hpair
    simp only [] at hpair
    have h1 := congrArg Prod.fst hpair
    have h2 := congrArg Prod.snd hpair
    simp only [Prod.fst] at h1
    simp only [Prod.snd] at h2
    have herr : (sort_files_with_date_loop fmt sp uc df false
        (scan_directory fs sp ["img", "vid", "arc", "msk"]) fs
        {}).2.errors = ({} : EnhancedSortingStats).errors := by
      rw [h2, herr0]
    have hhid := date_loop_hidden fmt sp uc df _ fs {} hwf
      (fun q hq => scannable_of_scan_conditions fs sp _ hwf q hq) herr
    rw [h1] at hhid
    have hempty := scan_empty_of_not_scannable fs' sp _ hhid.1 hhid.2
    refine ⟨hempty, ?_⟩
    unfold sort_files_with_date
    simp only []
    rw [hempty]
    rfl

/-- The date formatter of the C1 counterexample: every timestamp formats
to the bucket `"2024-01"`. -/
def fmtC1 : String → Nat → String := fun _ _ => "2024-01"

/-- Concrete tree for the C1 counterexample: one file `root/a.txt`. -/
def fsC1 : FS := ⟨[⟨["root", "a.txt"], 3, 7, 7, [], true⟩], [["root"]]⟩

/-- The tree after the first flat-archive run of the C1 counterexample:
the file was placed into the date bucket `root/2024-01/`. -/
def fsC1sorted : FS :=
  ⟨[⟨["root", "2024-01", "a.txt"], 3, 7, 7, [], true⟩],
   [["root"], ["root", "2024-01"]]⟩

/-- C1 counterexample: the flat archive mode's destination folders are
date-bucket names, which are not in its excluded scan set
`{img, vid, arc, msk}`.  The first run places `root/a.txt` at
`root/2024-01/a.txt`; the second run on that tree re-ingests the placed
file — its total-files-processed is 1, not 0 — and even re-moves it to
the conflict-resolved `root/2024-01/a_1.txt`. -/
theorem c1_counterexample :
    (sort_files_archive_mode fmtC1 fsC1 ["root"] false "%Y-%m" false
        false).1 = fsC1sorted ∧
    (sort_files_archive_mode fmtC1 fsC1 ["root"] false "%Y-%m" false
        false).2.total_files = 1 ∧
    (sort_files_archive_mode fmtC1 fsC1sorted ["root"] false "%Y-%m" false
        false).2.total_files = 1 ∧
    (sort_files_archive_mode fmtC1 fsC1sorted ["root"] false "%Y-%m" false
        false).1.filePaths = [["root", "2024-01", "a_1.txt"]] := by
  decide

/-- Concrete tree for the C1 witness: one image file under `root`. -/
def fsC1w : FS := ⟨[⟨["root", "b.jpg"], 4, 0, 0, [], true⟩], [["root"]]⟩

/-- Witness for C1: after the plain-mode run on `fsC1w`, the second run's
scan is empty and its statistics are all zero. -/
theorem c1_idempotent_resort_witness :
    scan_directory
      ⟨[⟨["root", "img", "b.jpg"], 4, 0, 0, [], true⟩],
       [["root"], ["root", "img"]]⟩
      ["root"] ["img", "vid", "arc", "msk"] = [] ∧
    sort_files
      ⟨[⟨["root", "img", "b.jpg"], 4, 0, 0, [], true⟩],
       [["root"], ["root", "img"]]⟩
      ["root"] false =
      .ok (⟨[⟨["root", "img", "b.jpg"], 4, 0, 0, [], true⟩],
        [["root"], ["root", "img"]]⟩, ⟨0, 0, 0, 0, 0⟩) :=
  c1_idempotent_resort.1 fsC1w ["root"]
    ⟨[⟨["root", "img", "b.jpg"], 4, 0, 0, [], true⟩],
     [["root"], ["root", "img"]]⟩
    ⟨1, 1, 0, 0, 0⟩ (by decide) (by decide)

/-! ## Hash algorithm validation (C10) -/

/-- C10.  `compute_hash` validates the algorithm name case-insensitively
before any file I/O: when the lowercased name is neither `"md5"` nor
`"sha256"` the result is the `ValueError` for the unsupported algorithm,
for *every* filesystem state — no file is consulted, so the failure can
never surface as an I/O error; when the lowercased name is `"md5"` or
`"sha256"` (e.g. `"MD5"`, `"Sha256"`) the function proceeds to open and
stream the file. -/
theorem c10_algorithm_validation (digest : String → List Nat → String)
    (fs : FS) (file_path : Path) (algorithm : String) :
    (strLower algorithm ≠ "md5" → strLower algorithm ≠ "sha256" →
      ∀ fs2 : FS, compute_hash digest fs2 file_path algorithm =
        .error (.valueErr ("Unsupported hash algorithm: " ++ algorithm))) ∧
    (strLower algorithm = "md5" ∨ strLower algorithm = "sha256" →
      compute_hash digest fs file_path algorithm =
        hashFileStream digest fs file_path (strLower algorithm)) := by
  constructor
  · intro h1 h2 fs2
    unfold compute_hash
    rw [if_neg h1, if_neg h2]
  · rintro (h | h)
    · unfold compute_hash
      rw [if_pos h, h]
    · unfold compute_hash
      by_cases h1 : strLower algorithm = "md5"
      · exact absurd (h1.symm.trans h) (by decide)
      · rw [if_neg h1, if_pos h, h]

/-- Witness for C10: `"SHA-1"` is rejected with `ValueError` on an empty
filesystem without touching any file, and `"MD5"` (uppercase) proceeds to
the streaming reader. -/
theorem c10_algorithm_validation_witness :
    compute_hash (fun _ _ => "") ⟨[], []⟩ ["x"] "SHA-1" =
      .error (.valueErr "Unsupported hash algorithm: SHA-1") ∧
    compute_hash (fun _ _ => "") ⟨[], []⟩ ["x"] "MD5" =
      hashFileStream (fun _ _ => "") ⟨[], []⟩ ["x"] (strLower "MD5") :=
  ⟨(c10_algorithm_validation (fun _ _ => "") ⟨[], []⟩ ["x"] "SHA-1").1
      (by decide) (by decide) ⟨[], []⟩,
   (c10_algorithm_validation (fun _ _ => "") ⟨[], []⟩ ["x"] "MD5").2
      (Or.inl (by decide))⟩

/-! ## Duplicate grouping and space accounting (C9) -/

/-- First group in insertion order with the given hash key (the dict
lookup `d[h]`). -/
def lookupGroup : List (String × List Path) → String → List Path
  | [], _ => []
  | g :: t, h => if g.1 = h then g.2 else lookupGroup t h

lemma lookupGroup_nil_of_any_false :
    ∀ (t : List (String × List Path)) (h : String),
    t.any (fun g => g.1 = h) = false → lookupGroup t h = [] := by
  intro t
  induction t with
  | nil => intro h _; rfl
  | cons g t ih =>
    intro h hany
    rw [List.any_cons, Bool.or_eq_false_iff] at hany
    rw [lookupGroup, if_neg (by simpa using hany.1)]
    exact ih h hany.2

lemma lookupGroup_map_bump_ne (fh : String) (p : Path) :
    ∀ (t : List (String × List Path)) (h : String), h ≠ fh →
    lookupGroup (t.map (fun g => if g.1 = fh then (g.1, g.2 ++ [p]) else g)) h =
      lookupGroup t h := by
  intro t
  induction t with
  | nil => intro h _; rfl
  | cons g t ih =>
    intro h hne
    by_cases hg : g.1 = fh
    · rw [List.map_cons, if_pos hg, lookupGroup, lookupGroup]
      rw [if_neg (by rw [hg]; exact fun hc => hne hc.symm),
        if_neg (by rw [hg]; exact fun hc => hne hc.symm)]
      exact ih h hne
    · rw [List.map_cons, if_neg hg, lookupGroup, lookupGroup]
      by_cases hgh : g.1 = h
      · rw [if_pos hgh, if_pos hgh]
      · rw [if_neg hgh, if_neg hgh]
        exact ih h hne

lemma lookupGroup_map_bump_eq (fh : String) (p : Path) :
    ∀ (t : List (String × List Path)),
    t.any (fun g => g.1 = fh) = true →
    lookupGroup (t.map (fun g => if g.1 = fh then (g.1, g.2 ++ [p]) else g)) fh =
      lookupGroup t fh ++ [p] := by
  intro t
  induction t with
  | nil => intro hany; exact absurd hany (by simp)
  | cons g t ih =>
    intro hany
    by_cases hg : g.1 = fh
    · rw [List.map_cons, if_pos hg, lookupGroup, lookupGroup,
        if_pos hg, if_pos hg]
    · rw [List.any_cons] at hany
      have hat : t.any (fun x => x.1 = fh) = true := by
        rw [Bool.or_eq_true] at hany
        rcases hany with hc | hc
        · exact absurd (by simpa using hc) hg
        · exact hc
      rw [List.map_cons, if_neg hg, lookupGroup, lookupGroup,
        if_neg hg, if_neg hg]
      exact ih hat

lemma addHashGroup_lookup (m : List (String × List Path)) (fh : String)
    (p : Path) (h : String) :
    lookupGroup (addHashGroup m fh p) h =
      if h = fh then lookupGroup m h ++ [p] else lookupGroup m h := by
  unfold addHashGroup
  by_cases hany : m.any (fun g => g.1 = fh) = true
  · rw [if_pos hany]
    by_cases hfh : h = fh
    · subst hfh
      rw [if_pos rfl]
      exact lookupGroup_map_bump_eq h p m hany
    · rw [if_neg hfh]
      exact lookupGroup_map_bump_ne fh p m h hfh
  · rw [Bool.not_eq_true] at hany
    rw [if_neg (by rw [hany]; simp)]
    by_cases hfh : h = fh
    · subst hfh
      rw [if_pos rfl, lookupGroup_nil_of_any_false m h hany]
      have : ∀ (t : List (String × List Path)),
          t.any (fun g => g.1 = h) = false →
          lookupGroup (t ++ [(h, [p])]) h = [p] := by
        intro t
        induction t with
        | nil => intro _; simp [lookupGroup]
        | cons g t iht =>
          intro ha
          rw [List.any_cons, Bool.or_eq_false_iff] at ha
          rw [List.cons_append, lookupGroup, if_neg (by simpa using ha.1)]
          exact iht ha.2
      rw [this m hany]
      simp
    · rw [if_neg hfh]
      have : ∀ (t : List (String × List Path)),
          lookupGroup (t ++ [(fh, [p])]) h = lookupGroup t h := by
        intro t
        induction t with
        | nil =>
          simp only [lookupGroup, List.nil_append]
          rw [if_neg (fun hc => hfh hc.symm)]
        | cons g t iht =>
          rw [List.cons_append, lookupGroup, lookupGroup]
          by_cases hgh : g.1 = h
          · rw [if_pos hgh, if_pos hgh]
          · rw [if_neg hgh, if_neg hgh]
            exact iht
      exact this m

lemma addHashGroup_keys_fst (m : List (String × List Path)) (fh : String)
    (p : Path) :
    (addHashGroup m fh p).map Prod.fst = m.map Prod.fst ∨
    ((addHashGroup m fh p).map Prod.fst = m.map Prod.fst ++ [fh] ∧
      fh ∉ m.map Prod.fst) := by
  unfold addHashGroup
  by_cases h : m.any (fun g => g.1 = fh) = true
  · rw [if_pos h]
    left
    rw [List.map_map]
    apply List.map_congr_left
    intro g _
    by_cases hg : g.1 = fh
    · simp [hg]
    · simp [hg]
  · rw [Bool.not_eq_true] at h
    rw [if_neg (by rw [h]; simp)]
    right
    refine ⟨by simp, ?_⟩
    intro hmem
    rw [List.mem_map] at hmem
    obtain ⟨g, hg, hfst⟩ := hmem
    have : m.any (fun g => g.1 = fh) = true :=
      List.any_eq_true.mpr ⟨g, hg, by simp [hfst]⟩
    rw [h] at this
    exact Bool.false_ne_true this

lemma addHashGroup_keys_nodup (m : List (String × List Path)) (fh : String)
    (p : Path) (hnd : (m.map Prod.fst).Nodup) :
    ((addHashGroup m fh p).map Prod.fst).Nodup := by
  rcases addHashGroup_keys_fst m fh p with h | ⟨h, hnm⟩ <;> rw [h]
  · exact hnd
  · refine List.Nodup.append hnd (List.nodup_singleton fh) ?_
    intro x hx hx2
    simp only [List.mem_singleton] at hx2
    subst hx2
    exact hnm hx

lemma fd_loop_lookup (digest : String → List Nat → String) (fs : FS)
    (algorithm : String) :
    ∀ (files : List Path) (m m' : List (String × List Path)),
    find_duplicates_loop digest fs algorithm files m = .ok m' →
    ∀ h, lookupGroup m' h = lookupGroup m h ++
      files.filter (fun p => compute_hash digest fs p algorithm = .ok h) := by
  intro files
  induction files with
  | nil =>
    intro m m' hok h
    simp only [find_duplicates_loop, Except.ok.injEq] at hok
    subst hok
    simp
  | cons p rest ih =>
    intro m m' hok h
    simp only [find_duplicates_loop] at hok
    split at hok
    · next fh heq =>
      have hlk := ih _ _ hok h
      rw [addHashGroup_lookup] at hlk
      rw [hlk, List.filter_cons]
      by_cases hfh : h = fh
      · subst hfh
        rw [if_pos rfl]
        have hd : (decide (compute_hash digest fs p algorithm = .ok h)) = true := by
          rw [heq]
          simp
        rw [hd]
        simp
      · rw [if_neg hfh]
        have hd : (decide (compute_hash digest fs p algorithm = .ok h)) = false := by
          rw [heq]
          simp
          exact fun hc => hfh hc.symm
        rw [hd]
        simp
    · next msg heq =>
      have hlk := ih _ _ hok h
      rw [hlk, List.filter_cons]
      have hd : (decide (compute_hash digest fs p algorithm = .ok h)) = false := by
        rw [heq]
        simp
      rw [hd]
      simp
    · next e heq =>
      exact absurd hok (by simp)

lemma fd_loop_keys (digest : String → List Nat → String) (fs : FS)
    (algorithm : String) :
    ∀ (files : List Path) (m m' : List (String × List Path)),
    find_duplicates_loop digest fs algorithm files m = .ok m' →
    (m.map Prod.fst).Nodup → (m'.map Prod.fst).Nodup := by
  intro files
  induction files with
  | nil =>
    intro m m' hok hnd
    simp only [find_duplicates_loop, Except.ok.injEq] at hok
    subst hok
    exact hnd
  | cons p rest ih =>
    intro m m' hok hnd
    simp only [find_duplicates_loop] at hok
    split at hok
    · next fh heq =>
      exact ih _ _ hok (addHashGroup_keys_nodup m fh p hnd)
    · next msg heq =>
      exact ih _ _ hok hnd
    · next e heq =>
      exact absurd hok (by simp)

lemma mem_iff_lookup (h : String) (ps : List Path) :
    ∀ (m : List (String × List Path)), (m.map Prod.fst).Nodup →
    ((h, ps) ∈ m ↔
      lookupGroup m h = ps ∧ m.any (fun g => g.1 = h) = true) := by
  intro m
  induction m with
  | nil => simp
  | cons g t ih =>
    intro hnd
    rw [List.map_cons, List.nodup_cons] at hnd
    rw [List.mem_cons, lookupGroup, List.any_cons]
    by_cases hg : g.1 = h
    · rw [if_pos hg]
      constructor
      · rintro (rfl | hmem)
        · exact ⟨rfl, by simp⟩
        · exfalso
          apply hnd.1
          rw [hg]
          exact List.mem_map_of_mem Prod.fst hmem
      · rintro ⟨hl, -⟩
        left
        rw [← hg, ← hl]
    · rw [if_neg hg]
      rw [ih hnd.2]
      constructor
      · rintro (rfl | ⟨hl, ha⟩)
        · exact absurd rfl hg
        · exact ⟨hl, by rw [ha]; simp⟩
      · rintro ⟨hl, ha⟩
        rw [Bool.or_eq_true] at ha
        rcases ha with hc | hc
        · exact absurd (by simpa using hc) hg
        · exact Or.inr ⟨hl, hc⟩

/-- The per-group reclaimable space: first member's size times the number
of members beyond the first (0 when the group is degenerate or its first
member cannot be stat-ed). -/
def groupSpace (fs : FS) (g : String × List Path) : Nat :=
  if g.2.length > 1 then
    match g.2.head? with
    | some p0 =>
      match fs.files.find? (fun e => e.path = p0) with
      | some e => e.size * (g.2.length - 1)
      | none => 0
    | none => 0
  else 0

lemma css_body (fs : FS) (acc : Nat) (g : String × List Path) :
    (if g.2.length > 1 then
      match g.2.head? with
      | some p0 =>
        match fs.files.find? (fun e => e.path = p0) with
        | some e => acc + e.size * (g.2.length - 1)
        | none => acc
      | none => acc
    else acc) = acc + groupSpace fs g := by
  unfold groupSpace
  split
  · split
    · split
      · rfl
      · simp
    · simp
  · simp

lemma css_general (fs : FS) : ∀ (dups : List (String × List Path))
    (init : Nat),
    dups.foldl (fun total_saved g =>
      if g.2.length > 1 then
        match g.2.head? with
        | some p0 =>
          match fs.files.find? (fun e => e.path = p0) with
          | some e => total_saved + e.size * (g.2.length - 1)
          | none => total_saved
        | none => total_saved
      else total_saved) init = init + (dups.map (groupSpace fs)).sum := by
  intro dups
  induction dups with
  | nil =>
    intro init
    simp
  | cons g t ih =>
    intro init
    rw [List.foldl_cons, ih, css_body]
    simp only [List.map_cons, List.sum_cons]
    omega

/-- The digest of the C9 scenario: the bytes rendered as digit
characters (injective on the contents involved). -/
def digC9 : String → List Nat → String :=
  fun _ bytes => String.mk (bytes.map Nat.digitChar)

/-- The C9 scenario tree: three 100-byte files with identical content. -/
def fsC9 : FS :=
  ⟨[⟨["root", "d1.txt"], 100, 0, 0, List.replicate 100 0, true⟩,
    ⟨["root", "d2.txt"], 100, 0, 0, List.replicate 100 0, true⟩,
    ⟨["root", "d3.txt"], 100, 0, 0, List.replicate 100 0, true⟩],
   [["root"]]⟩

/-- C9.  Duplicate grouping and space accounting: whenever
`find_duplicates` succeeds, its result contains `(h, ps)` exactly when
`ps` is the list, in input order, of the files whose hash computation
succeeds with value `h`, and `ps` has at least 2 members (unreadable
files are skipped, never fatal); `calculate_space_saved` is the sum over
the groups of the first member's size times the number of members beyond
the first; and on the concrete scenario of three files with identical
100-byte content and distinct names the result is one group of the 3
paths with a space saving of 200. -/
theorem c9_duplicates_space (digest : String → List Nat → String) (fs : FS)
    (files : List Path) (algorithm : String)
    (res : List (String × List Path))
    (hres : find_duplicates digest fs files algorithm = .ok res) :
    (∀ (h : String) (ps : List Path),
      ((h, ps) ∈ res ↔
        ps = files.filter
          (fun p => compute_hash digest fs p algorithm = .ok h) ∧
        2 ≤ ps.length)) ∧
    (∀ (fs2 : FS) (dups : List (String × List Path)),
      calculate_space_saved fs2 dups = (dups.map (groupSpace fs2)).sum) ∧
    find_duplicates digC9 fsC9
      [["root", "d1.txt"], ["root", "d2.txt"], ["root", "d3.txt"]] "md5" =
      .ok [(String.mk (List.replicate 100 (Nat.digitChar 0)),
        [["root", "d1.txt"], ["root", "d2.txt"], ["root", "d3.txt"]])] ∧
    calculate_space_saved fsC9
      [(String.mk (List.replicate 100 (Nat.digitChar 0)),
        [["root", "d1.txt"], ["root", "d2.txt"], ["root", "d3.txt"]])] =
      200 := by
  unfold find_duplicates at hres
  cases hloop : find_duplicates_loop digest fs algorithm files [] with
  | error e =>
    rw [hloop] at hres
    exact absurd hres (by simp [Except.map])
  | ok m' =>
    rw [hloop] at hres
    simp only [Except.map, Except.ok.injEq] at hres
    subst hres
    refine ⟨?_, ?_, by decide, by decide⟩
    · intro h ps
      have hlk := fd_loop_lookup digest fs algorithm files [] m' hloop h
      have hnd := fd_loop_keys digest fs algorithm files [] m' hloop (by simp)
      simp only [lookupGroup, List.nil_append] at hlk
      constructor
      · intro hmem
        rw [List.mem_filter] at hmem
        obtain ⟨hmem, hlen⟩ := hmem
        rw [mem_iff_lookup h ps m' hnd] at hmem
        refine ⟨by rw [← hmem.1, hlk], ?_⟩
        simp only [decide_eq_true_eq] at hlen
        omega
      · rintro ⟨hps, hlen⟩
        have hne : lookupGroup m' h ≠ [] := by
          rw [hlk, ← hps]
          intro hc
          rw [hc] at hlen
          simp at hlen
        have hany : m'.any (fun g => g.1 = h) = true := by
          by_cases hc : m'.any (fun g => g.1 = h) = true
          · exact hc
          · rw [Bool.not_eq_true] at hc
            exact absurd (lookupGroup_nil_of_any_false m' h hc) hne
        rw [List.mem_filter]
        refine ⟨?_, ?_⟩
        · rw [mem_iff_lookup h ps m' hnd]
          exact ⟨by rw [hlk, ← hps], hany⟩
        · simp only [decide_eq_true_eq]
          omega
    · intro fs2 dups
      unfold calculate_space_saved
      rw [css_general fs2 dups 0]
      omega

/-- Witness for C9: on the concrete scenario, the characterization places
the single group of all three paths in the result, and the space saved is
`(3 - 1) * 100 = 200`. -/
theorem c9_duplicates_space_witness :
    ((String.mk (List.replicate 100 (Nat.digitChar 0)),
      [["root", "d1.txt"], ["root", "d2.txt"], ["root", "d3.txt"]]) ∈
      [(String.mk (List.replicate 100 (Nat.digitChar 0)),
        ([["root", "d1.txt"], ["root", "d2.txt"], ["root", "d3.txt"]] :
          List Path))]) ∧
    calculate_space_saved fsC9
      [(String.mk (List.replicate 100 (Nat.digitChar 0)),
        [["root", "d1.txt"], ["root", "d2.txt"], ["root", "d3.txt"]])] = 200 :=
  ⟨((c9_duplicates_space digC9 fsC9
      [["root", "d1.txt"], ["root", "d2.txt"], ["root", "d3.txt"]] "md5"
      [(String.mk (List.replicate 100 (Nat.digitChar 0)),
        [["root", "d1.txt"], ["root", "d2.txt"], ["root", "d3.txt"]])]
      (by decide)).1
      (String.mk (List.replicate 100 (Nat.digitChar 0)))
      [["root", "d1.txt"], ["root", "d2.txt"], ["root", "d3.txt"]]).mpr
      ⟨by decide, by decide⟩,
   by decide⟩

end SikSort
